import Mathlib

/-!
# Recompyle: a shallow embedding of the function-rewriting engine

This development embeds the core of the `recompyle` Python package:

* `src/recompyle/transformers/function.py` — `RemoveDecoratorTransformer`
  and `WrapCallsTransformer` (decorator removal, call-name resolution,
  blacklist/whitelist filtering with wildcard subscripts, call wrapping,
  keyword-only wrapper parameter injection);
* `src/recompyle/rewrite/rewrite_function.py` — `FunctionRewriter`
  (source retrieval, line-number bookkeeping via `ast.increment_lineno`)
  and the orchestrators `rewrite_function` / `rewrite_wrap_calls_func`;
* `src/recompyle/applied/flat_profiler.py` — the callback validation in
  `flat_profile` and `shallow_call_profiler`.

The Python `ast` node shapes that the transformer inspects are embedded as
a mutual inductive family (`PExpr`, `PExprList`, `PKeywords`, `PStmt`,
`PStmtList`).  Nodes carry the `lineno` attribute (as `Int`, matching
Python's arbitrary-precision integers) because the engine's correctness
story for tracebacks is a statement about line numbers.  A small dynamic
semantics (`evalExpr` and friends, fuel-based) gives meaning to the
fragment of Python the engine's call-transparency contract is about.
-/

/-- Python constant literals, the subset relevant to the transformer
(`ast.Constant` values that can appear as callee subscripts or arguments). -/
inductive PConst where
  | intC (i : Int)
  | strC (s : String)
  | boolC (b : Bool)
  | noneC
deriving DecidableEq, Repr

/-- `str(value)` for embedded constants: Python renders strings without
quotes, booleans as `True` / `False`, `None` as `None`.  Used by
`_build_name`, which relies on `str` for `ast.Constant` values. -/
def PConst.pyStr : PConst → String
  | .intC i => toString i
  | .strC s => s
  | .boolC true => "True"
  | .boolC false => "False"
  | .noneC => "None"

mutual

/-- Embedding of the Python `ast.expr` shapes the engine manipulates:
`Constant`, `Name`, `Attribute`, `Subscript` and `Call`.  Every node
carries its `lineno`.  (`ast.Call.keywords` is embedded with named keys
only; `**kwargs` splats are outside the modelled fragment.) -/
inductive PExpr where
  | constant (c : PConst) (line : Int)
  | name (id : String) (line : Int)
  | attribute (value : PExpr) (attr : String) (line : Int)
  | subscript (value : PExpr) (slice : PExpr) (line : Int)
  | call (func : PExpr) (args : PExprList) (keywords : PKeywords) (line : Int)

/-- A list of expressions (e.g. `ast.Call.args`, decorator lists). -/
inductive PExprList where
  | nil
  | cons (head : PExpr) (tail : PExprList)

/-- Keyword arguments of a call: `ast.keyword(arg=key, value=e)`. -/
inductive PKeywords where
  | nil
  | cons (key : String) (value : PExpr) (tail : PKeywords)

/-- Embedding of the Python statements relevant to the rewritten function
bodies.  `functionDef` mirrors `ast.FunctionDef` with the fields the
transformer touches: positional parameter names, keyword-only parameter
names with their default expressions (`args.kwonlyargs` / `kw_defaults`),
the decorator list and the body. -/
inductive PStmt where
  | exprStmt (e : PExpr) (line : Int)
  | assign (target : String) (e : PExpr) (line : Int)
  | ret (e : PExpr) (line : Int)
  | ifStmt (cond : PExpr) (body : PStmtList) (orelse : PStmtList) (line : Int)
  | whileStmt (cond : PExpr) (body : PStmtList) (line : Int)
  | functionDef (fname : String) (params : List String) (kwonlyargs : List String)
      (kwdefaults : PExprList) (decorators : PExprList) (body : PStmtList) (line : Int)

/-- A list of statements (function bodies, branches). -/
inductive PStmtList where
  | nil
  | cons (head : PStmt) (tail : PStmtList)

end

/-- The kind string of a node, as `type(node).__name__` would render it in
the `TypeError` messages of `_build_name` and `_is_deco_target`. -/
def PExpr.kind : PExpr → String
  | .constant _ _ => "Constant"
  | .name _ _ => "Name"
  | .attribute _ _ _ => "Attribute"
  | .subscript _ _ _ => "Subscript"
  | .call _ _ _ _ => "Call"

/-- Python exceptions raised by the transformer / rewriter at decoration
time: `TypeError` and `ValueError` with their messages. -/
inductive TErr where
  | typeErr (msg : String)
  | valueErr (msg : String)
deriving DecidableEq, Repr

/-- `WRAP_NAME = "_recompyle_wrap"` from `rewrite_function.py`. -/
def WRAP_NAME : String := "_recompyle_wrap"

/-! ## `WrapCallsTransformer._build_name`

Recursively builds the canonical textual identity of a callee expression.
The source handles `Constant` (via `str`, no quoting), `Name`, `Attribute`
(`<base>.<attr>`) and `Subscript` (`<base>[<key>]`); every other node shape
— including a `Call` used as a callee — falls to the wildcard `case _` and
raises `TypeError`. -/
def buildName : PExpr → Except TErr String
  | .constant c _ => .ok c.pyStr
  | .name id _ => .ok id
  | .attribute v a _ => do
      let base ← buildName v
      .ok (base ++ "." ++ a)
  | .subscript v sl _ => do
      let base ← buildName v
      let inner ← buildName sl
      .ok (base ++ "[" ++ inner ++ "]")
  | e@(.call _ _ _ _) => .error (.typeErr ("Unknown call node type: " ++ e.kind))
termination_by structural e => e

/-! ## Wildcard machinery of `_allow_wrap_call`

`re.finditer(r"\[(.*?)\]", full_name)` scans left to right; each match
starts at a `[` and extends lazily to the next `]`.  `bracketSpansAux`
reproduces that scan over the character list, returning `(start, stop)`
index pairs (`m.start()` / `m.end()`). -/

/-- Index of the first `]` in `cs`, if any. -/
def findCloseBracket : List Char → Option Nat
  | [] => none
  | c :: rest =>
      if c = ']' then some 0
      else (findCloseBracket rest).map (· + 1)

/-- One step of the regex scan: find the next `\[(.*?)\]` match at or after
position `i` of the remaining characters `cs`.  The extra `Nat` is fuel
(initially the string length, which bounds the number of scan steps). -/
def bracketSpansAux : Nat → List Char → Nat → List (Nat × Nat)
  | 0, _, _ => []
  | _ + 1, [], _ => []
  | fuel + 1, c :: rest, i =>
      if c = '[' then
        match findCloseBracket rest with
        | some j =>
            -- match spans indices `i .. i + j + 1` inclusive; `m.end()` is
            -- one past the closing bracket.
            (i, i + j + 2) :: bracketSpansAux fuel (rest.drop (j + 1)) (i + j + 2)
        | none => []
      else
        bracketSpansAux fuel rest (i + 1)

/-- All `\[(.*?)\]` match spans of a name, as `re.finditer` yields them. -/
def bracketSpans (s : String) : List (Nat × Nat) :=
  bracketSpansAux s.data.length s.data 0

/-- Replace the span `(start, stop)` of a character list by `[*]`. -/
def replaceSpan (cs : List Char) (span : Nat × Nat) : List Char :=
  cs.take span.1 ++ ('[' :: '*' :: ']' :: []) ++ cs.drop span.2

/-- Replace a combination of spans, rightmost first (the source iterates
`reversed(c)` because replacements change the string length). -/
def replaceSpansRev (cs : List Char) : List (Nat × Nat) → List Char
  | [] => cs
  | span :: rest => replaceSpansRev (replaceSpan cs span) rest

/-- `itertools.combinations(matches, i)`: all length-`i` sublists in order. -/
def combinations : Nat → List (Nat × Nat) → List (List (Nat × Nat))
  | 0, _ => [[]]
  | _ + 1, [] => []
  | i + 1, x :: xs => (combinations i xs).map (x :: ·) ++ combinations (i + 1) xs

/-- The enumeration `for i in range(1, len(matches) + 1): for c in
itertools.combinations(matches, i)` of `_allow_wrap_call`. -/
def wildcardCombos (spans : List (Nat × Nat)) : List (List (Nat × Nat)) :=
  (List.range' 1 spans.length).flatMap (fun i => combinations i spans)

/-- The wildcard name produced from one combination: replacements applied in
reverse order of the combination. -/
def wildcardName (fullName : String) (combo : List (Nat × Nat)) : String :=
  ⟨replaceSpansRev fullName.data combo.reverse⟩

/-- All wildcard alternatives of a full name, in enumeration order. -/
def wildcardNames (fullName : String) : List String :=
  (wildcardCombos (bracketSpans fullName)).map (wildcardName fullName)

/-! ## `WrapCallsTransformer._allow_name` and `_allow_wrap_call`

Filter sets are embedded as `List String`; Python's truthiness test
`if self.blacklist` becomes a non-emptiness test (the transformer stores
either `None` or a `set`, and both `None` and the empty set are falsy). -/

/-- `_allow_name`: black/whitelist membership, `none` meaning "keep
checking". -/
def allowName (blacklist whitelist : List String) (nm : String) : Option Bool :=
  if blacklist ≠ [] ∧ nm ∈ blacklist then some false
  else if whitelist ≠ [] ∧ nm ∈ whitelist then some true
  else none

/-- Is this call's callee the bare name `globals` or `locals`?  Matches the
source's `case ast.Call(func=ast.Name(id=check))` guard. -/
def calleeIsNamespaceReflection : PExpr → Bool
  | .call (.name check _) _ _ _ => check = "globals" ∨ check = "locals"
  | _ => false

/-- `_allow_wrap_call`: decide whether a call node gets wrapped.  Faithful
to the source's control flow: the `globals`/`locals` guard first, then the
default-allow when both filters are empty, then the exact-name check, then
the wildcard combinations in enumeration order with first match winning,
and finally `bool(self.blacklist)` as the default. -/
def allowWrapCall (blacklist whitelist : List String) (node : PExpr) :
    Except TErr Bool :=
  if calleeIsNamespaceReflection node then .ok false
  else if blacklist = [] ∧ whitelist = [] then .ok true
  else
    match node with
    | .call f _ _ _ => do
        let fullName ← buildName f
        match allowName blacklist whitelist fullName with
        | some r => .ok r
        | none =>
            match (wildcardNames fullName).findSome?
                (allowName blacklist whitelist) with
            | some r => .ok r
            | none => .ok (blacklist ≠ [])
    | e => do
        -- `_allow_wrap_call` is only ever invoked on `ast.Call` nodes by
        -- `visit_Call`; on other shapes the name build runs first.
        let fullName ← buildName e
        match allowName blacklist whitelist fullName with
        | some r => .ok r
        | none =>
            match (wildcardNames fullName).findSome?
                (allowName blacklist whitelist) with
            | some r => .ok r
            | none => .ok (blacklist ≠ [])

/-! ## The transformer

`WrapCallsTransformer` is an `ast.NodeTransformer`: `visit_Call` rewrites
eligible calls, `visit_FunctionDef` injects the wrapper parameter and
(through its base class `RemoveDecoratorTransformer`) strips the named
decorator.  The traversal below reproduces `generic_visit`'s recursion into
children — in particular, after `visit_Call` builds the replacement node it
recurses into the *replacement's* children, so the original callee and
arguments are themselves transformed inside the new node. -/

/-- Transformer configuration: the wrapper name injected by
`rewrite_wrap_calls_func` plus the `WrapCallsTransformer` constructor
arguments.  Filter sets are lists; `none`-or-empty is Python-falsy. -/
structure TConfig where
  wrapName : String
  decName : Option String
  blacklist : List String
  whitelist : List String
deriving Repr

/-- `RemoveDecoratorTransformer._is_deco_target`: a decorator matches when
it is `Name(id=dec_name)` (plain decorator) or `Call(func=Name(id=dec_name))`
(decorator factory); any other shape raises `TypeError`. -/
def isDecoTarget (decName : String) : PExpr → Except TErr Bool
  | .name id _ => .ok (id = decName)
  | .call (.name id _) _ _ _ => .ok (id = decName)
  | e => .error (.typeErr ("Decorator type " ++ e.kind ++ " not supported."))

/-- The list comprehension
`[val for val in node.decorator_list if not self._is_deco_target(val)]`:
elements are tested left to right, keeping non-targets; a `TypeError` from
`_is_deco_target` aborts the whole comprehension. -/
def removeDecorators (decName : String) : PExprList → Except TErr PExprList
  | .nil => .ok .nil
  | .cons e rest => do
      let isTarget ← isDecoTarget decName e
      let rest' ← removeDecorators decName rest
      if isTarget then .ok rest' else .ok (.cons e rest')
termination_by structural ds => ds

/-- Length of an expression list (`len(node.decorator_list)`). -/
def PExprList.length : PExprList → Nat
  | .nil => 0
  | .cons _ rest => 1 + rest.length

/-- Append for expression lists (`kw_defaults.append(...)`). -/
def PExprList.append : PExprList → PExprList → PExprList
  | .nil, ys => ys
  | .cons x xs, ys => .cons x (xs.append ys)

/-- The `ValueError` message of a failed decorator removal. -/
def decoNotFoundMsg (d : String) : String :=
  "Decorator named '" ++ d ++ "' not found."

mutual

/-- `WrapCallsTransformer.visit_Call` composed with the `NodeTransformer`
traversal.  The eligibility of the *original* node is decided first; if
eligible, the replacement `Call(Name(wrap_call_name), [node.func,
*node.args], node.keywords)` is built, `ast.copy_location` gives it the
original node's line (the fresh `Name` has no location of its own and later
receives the same line from `ast.fix_missing_locations`), and traversal
recurses into the replacement's children. -/
def transformExpr (cfg : TConfig) : PExpr → Except TErr PExpr
  | .call f args kws l => do
      let allow ← allowWrapCall cfg.blacklist cfg.whitelist (.call f args kws l)
      let f' ← transformExpr cfg f
      let args' ← transformExprList cfg args
      let kws' ← transformKeywords cfg kws
      if allow then
        .ok (.call (.name cfg.wrapName l) (.cons f' args') kws' l)
      else
        .ok (.call f' args' kws' l)
  | .constant c l => .ok (.constant c l)
  | .name id l => .ok (.name id l)
  | .attribute v a l => do
      let v' ← transformExpr cfg v
      .ok (.attribute v' a l)
  | .subscript v s l => do
      let v' ← transformExpr cfg v
      let s' ← transformExpr cfg s
      .ok (.subscript v' s' l)
termination_by structural e => e

/-- Traversal of expression lists. -/
def transformExprList (cfg : TConfig) : PExprList → Except TErr PExprList
  | .nil => .ok .nil
  | .cons e rest => do
      let e' ← transformExpr cfg e
      let rest' ← transformExprList cfg rest
      .ok (.cons e' rest')
termination_by structural es => es

/-- Traversal of keyword arguments: keys pass through unchanged, values are
visited. -/
def transformKeywords (cfg : TConfig) : PKeywords → Except TErr PKeywords
  | .nil => .ok .nil
  | .cons k v rest => do
      let v' ← transformExpr cfg v
      let rest' ← transformKeywords cfg rest
      .ok (.cons k v' rest')
termination_by structural ks => ks

end

mutual

/-- Statement traversal.  `visit_FunctionDef` (of `WrapCallsTransformer`,
whose `super()` is `RemoveDecoratorTransformer.visit_FunctionDef`) first
appends the wrapper as a keyword-only parameter whose default is a `Name`
referencing the wrapper itself, then performs the optional decorator
removal (decrementing `adjust_lineno` on success, raising `ValueError` when
nothing was removed), then `generic_visit` recurses into all children — the
`kw_defaults` expressions, the body, and the (post-removal) decorator list.
The `Int` accumulator threads the transformer's `adjust_lineno`. -/
def transformStmt (cfg : TConfig) (adj : Int) : PStmt → Except TErr (PStmt × Int)
  | .exprStmt e l => do
      let e' ← transformExpr cfg e
      .ok (.exprStmt e' l, adj)
  | .assign t e l => do
      let e' ← transformExpr cfg e
      .ok (.assign t e' l, adj)
  | .ret e l => do
      let e' ← transformExpr cfg e
      .ok (.ret e' l, adj)
  | .ifStmt c body orelse l => do
      let c' ← transformExpr cfg c
      let (body', adj1) ← transformStmtList cfg adj body
      let (orelse', adj2) ← transformStmtList cfg adj1 orelse
      .ok (.ifStmt c' body' orelse' l, adj2)
  | .whileStmt c body l => do
      let c' ← transformExpr cfg c
      let (body', adj1) ← transformStmtList cfg adj body
      .ok (.whileStmt c' body' l, adj1)
  | .functionDef fn params kwonly kwdefaults decos body l => do
      -- `node.args.kwonlyargs.append(ast.arg(wrap_call_name))` and
      -- `node.args.kw_defaults.append(ast.Name(id=wrap_call_name))`; the
      -- fresh `Name` takes the definition's line via
      -- `ast.fix_missing_locations`.
      let kwonly' := kwonly ++ [cfg.wrapName]
      let kwdefaults' := kwdefaults.append (.cons (.name cfg.wrapName l) .nil)
      let step ←
        match cfg.decName with
        | none => .ok (decos, adj)
        | some d => do
            let kept ← removeDecorators d decos
            if kept.length = decos.length then
              .error (.valueErr (decoNotFoundMsg d))
            else
              .ok (kept, adj - 1)
      let kwdefaults'' ← transformExprList cfg kwdefaults'
      let (body', adj2) ← transformStmtList cfg step.2 body
      let decos' ← transformExprList cfg step.1
      .ok (.functionDef fn params kwonly' kwdefaults'' decos' body' l, adj2)
termination_by structural s => s

/-- Statement-list traversal, threading `adjust_lineno`. -/
def transformStmtList (cfg : TConfig) (adj : Int) :
    PStmtList → Except TErr (PStmtList × Int)
  | .nil => .ok (.nil, adj)
  | .cons s rest => do
      let (s', adj1) ← transformStmt cfg adj s
      let (rest', adj2) ← transformStmtList cfg adj1 rest
      .ok (.cons s' rest', adj2)
termination_by structural ss => ss

end

/-! ## Line-number bookkeeping

`FunctionRewriter` parses the text that `inspect.getsource` returns for the
function's code object.  That block starts at file line `co_firstlineno`
(for a decorated function this is the first decorator's line — checked
against CPython), while `ast.parse` numbers it from 1, so the parsed tree's
linenos are the original ones shifted by `1 - firstlineno`.
`transform_tree` then calls `ast.increment_lineno(tree, firstlineno +
adjust_lineno)` and `ast.fix_missing_locations`. -/

mutual

/-- `ast.increment_lineno` on expressions: add `n` to every node's line. -/
def incrementExpr (n : Int) : PExpr → PExpr
  | .constant c l => .constant c (l + n)
  | .name id l => .name id (l + n)
  | .attribute v a l => .attribute (incrementExpr n v) a (l + n)
  | .subscript v s l => .subscript (incrementExpr n v) (incrementExpr n s) (l + n)
  | .call f args kws l =>
      .call (incrementExpr n f) (incrementExprList n args) (incrementKeywords n kws) (l + n)

/-- `ast.increment_lineno` on expression lists. -/
def incrementExprList (n : Int) : PExprList → PExprList
  | .nil => .nil
  | .cons e rest => .cons (incrementExpr n e) (incrementExprList n rest)

/-- `ast.increment_lineno` on keywords. -/
def incrementKeywords (n : Int) : PKeywords → PKeywords
  | .nil => .nil
  | .cons k v rest => .cons k (incrementExpr n v) (incrementKeywords n rest)

/-- `ast.increment_lineno` on statements. -/
def incrementStmt (n : Int) : PStmt → PStmt
  | .exprStmt e l => .exprStmt (incrementExpr n e) (l + n)
  | .assign t e l => .assign t (incrementExpr n e) (l + n)
  | .ret e l => .ret (incrementExpr n e) (l + n)
  | .ifStmt c body orelse l =>
      .ifStmt (incrementExpr n c) (incrementStmtList n body) (incrementStmtList n orelse) (l + n)
  | .whileStmt c body l => .whileStmt (incrementExpr n c) (incrementStmtList n body) (l + n)
  | .functionDef fn params kwonly kwdefaults decos body l =>
      .functionDef fn params kwonly (incrementExprList n kwdefaults)
        (incrementExprList n decos) (incrementStmtList n body) (l + n)

/-- `ast.increment_lineno` on statement lists. -/
def incrementStmtList (n : Int) : PStmtList → PStmtList
  | .nil => .nil
  | .cons s rest => .cons (incrementStmt n s) (incrementStmtList n rest)

end

mutual

/-- The line numbers of all statements in a tree, in traversal order.
Tracebacks report statement lines, so this is the observable the engine's
line-number invariant is about. -/
def stmtLines : PStmt → List Int
  | .exprStmt _ l => [l]
  | .assign _ _ l => [l]
  | .ret _ l => [l]
  | .ifStmt _ body orelse l => l :: (stmtListLines body ++ stmtListLines orelse)
  | .whileStmt _ body l => l :: stmtListLines body
  | .functionDef _ _ _ _ _ body l => l :: stmtListLines body

/-- Statement lines of a list of statements. -/
def stmtListLines : PStmtList → List Int
  | .nil => []
  | .cons s rest => stmtLines s ++ stmtListLines rest

end

mutual

/-- No `ast.FunctionDef` anywhere in a statement (the single-definition
shape of an ordinary decorated function). -/
def noNestedDef : PStmt → Bool
  | .exprStmt _ _ => true
  | .assign _ _ _ => true
  | .ret _ _ => true
  | .ifStmt _ body orelse _ => noNestedDefList body && noNestedDefList orelse
  | .whileStmt _ body _ => noNestedDefList body
  | .functionDef _ _ _ _ _ _ _ => false

/-- No `ast.FunctionDef` in a statement list. -/
def noNestedDefList : PStmtList → Bool
  | .nil => true
  | .cons s rest => noNestedDef s && noNestedDefList rest

end

/-! ## The orchestrator `rewrite_wrap_calls_func`

The decoration-time pipeline, in the source's order of effects:

1. `full_blacklist` is combined with the builtin callables when
   `ignore_builtins` is set — `full_blacklist |= builtin_calls` mutates the
   *caller's* set in place when one was supplied, which the model records
   in `callerBlacklistAfter`;
2. the `WrapCallsTransformer` constructor rejects simultaneous non-empty
   blacklist and whitelist;
3. `rewrite_function` refuses functions with a non-empty `__closure__`;
4. `FunctionRewriter.__init__` rejects non-`FunctionType` objects
   (`TypeError`) and functions whose source is unavailable (`ValueError`);
5. the tree is transformed and re-numbered
   (`ast.increment_lineno(tree, firstlineno + adjust)`), and
   `compile_tree` insists the result is still a function definition. -/

/-- What `FunctionRewriter` extracts from a live function: `co_firstlineno`
plus the parsed tree.  `tree` carries the *original file* line numbers; the
pipeline derives the parse-relative numbering from it (the source block
handed to `ast.parse` starts at file line `firstlineno`, so parsing shifts
every line by `1 - firstlineno`). -/
structure ParsedSource where
  firstlineno : Int
  tree : PStmt

/-- The attributes of a decoration target consumed by the pipeline.
`isFunc` models `isinstance(f, FunctionType)`; `closureVars` the cells of
`f.__closure__`; `src = none` an unretrievable source; `builtins` the
`f.__builtins__` mapping, each name tagged with `isinstance(value,
Callable)`. -/
structure PyFunc where
  isFunc : Bool
  closureVars : List String
  src : Option ParsedSource
  builtins : List (String × Bool)

/-- The names bound to callables in the target's builtin namespace:
`{key for key, value in target_func.__builtins__.items() if
isinstance(value, Callable)}`. -/
def callableBuiltins (tf : PyFunc) : List String :=
  (tf.builtins.filter (fun p => p.2)).map (fun p => p.1)

/-- The blacklist used by the transformer after the `ignore_builtins`
merge. -/
def mergedBlacklist (tf : PyFunc) (ignoreBuiltins : Bool)
    (blacklist : Option (List String)) : List String :=
  if ignoreBuiltins then blacklist.getD [] ++ callableBuiltins tf
  else blacklist.getD []

/-- The caller-visible value of the supplied blacklist set after
decoration: `full_blacklist |= builtin_calls` is an in-place update, and
when the caller passed a set, `full_blacklist` *is* that set, so the
caller's object now also holds every callable builtin name.  Without
`ignore_builtins` (or without a supplied set) the caller's object is
untouched. -/
def callerBlacklistAfter (tf : PyFunc) (ignoreBuiltins : Bool)
    (blacklist : Option (List String)) : Option (List String) :=
  match ignoreBuiltins, blacklist with
  | true, some s => some (s ++ callableBuiltins tf)
  | _, _ => blacklist

/-- Result of a successful decoration, with the data the claims are about:
the re-numbered tree, the accumulated `adjust_lineno`, the transformer's
blacklist, and the caller-visible filter sets after decoration. -/
structure RewriteResult where
  finalTree : PStmt
  adjust : Int
  fullBlacklist : List String
  callerBlacklist : Option (List String)
  callerWhitelist : Option (List String)

/-- The decoration-time pipeline of `rewrite_wrap_calls_func` /
`rewrite_function` / `FunctionRewriter`. -/
def rewriteWrapCallsFunc (tf : PyFunc) (decoratorName : Option String)
    (ignoreBuiltins : Bool) (blacklist whitelist : Option (List String)) :
    Except TErr RewriteResult :=
  -- `WrapCallsTransformer.__init__`: `if blacklist and whitelist: raise`
  if mergedBlacklist tf ignoreBuiltins blacklist ≠ [] ∧ whitelist.getD [] ≠ [] then
    .error (.valueErr "Call blacklist and whitelist can not both be used at once")
  -- `rewrite_function`: `if target_func.__closure__: raise`
  else if tf.closureVars ≠ [] then
    .error (.valueErr "Functions with non-local variables not supported for wrapping.")
  -- `FunctionRewriter.__init__`: `if not isinstance(target_func, FunctionType)`
  else if ¬ tf.isFunc then
    .error (.typeErr "Only functions/methods supported for AST transformation.")
  else
    match tf.src with
    | none => .error (.valueErr "Source not available")
    | some si => do
        let step ← transformStmt
          ⟨WRAP_NAME, decoratorName, mergedBlacklist tf ignoreBuiltins blacklist,
            whitelist.getD []⟩ 0 (incrementStmt (1 - si.firstlineno) si.tree)
        let finalTree := incrementStmt (si.firstlineno + step.2) step.1
        match finalTree with
        | .functionDef _ _ _ _ _ _ _ =>
            .ok ⟨finalTree, step.2, mergedBlacklist tf ignoreBuiltins blacklist,
              callerBlacklistAfter tf ignoreBuiltins blacklist, whitelist⟩
        | _ => .error (.typeErr "Only functions can be recompiled")

/-! ## Profiler construction checks (`flat_profiler.py`) -/

/-- The callback validation at the top of `flat_profile`:
`if below_callback is None and above_callback is None: raise ValueError`. -/
def flatProfileCheck {α : Type} (belowCallback aboveCallback : Option α) :
    Except TErr Unit :=
  match belowCallback, aboveCallback with
  | none, none =>
      .error (.valueErr "At least one of before_callback and above_callback must be non-None")
  | _, _ => .ok ()

/-- The identical validation in the deprecated `shallow_call_profiler`. -/
def shallowCallProfilerCheck {α : Type} (belowCallback aboveCallback : Option α) :
    Except TErr Unit :=
  match belowCallback, aboveCallback with
  | none, none =>
      .error (.valueErr "At least one of before_callback and above_callback must be non-None")
  | _, _ => .ok ()

/-! ## Dynamic semantics

A small-footprint semantics for the embedded fragment, enough to state the
engine's call-transparency contract: values, environments, a program of
top-level functions (the target's module globals), builtin callables with
opaque behaviours, and a fuel-indexed evaluator.  `Val.wrapV` is the
identity wrapper object `w(c, *args, **kwargs) = c(*args, **kwargs)`; its
application rule simply applies its first argument to the rest, which is
that wrapper's observable behaviour. -/

/-- Runtime values. -/
inductive Val where
  | intV (i : Int)
  | strV (s : String)
  | boolV (b : Bool)
  | noneV
  | listV (elems : List Val)
  | objV (fields : List (String × Val))
  | fnRef (f : String)
  | builtinRef (b : String)
  | wrapV

/-- Runtime exceptions. -/
inductive Err where
  | typeError (msg : String)
  | nameError (n : String)
  | attributeError (a : String)
  | indexError
  | userError (msg : String)
deriving DecidableEq, Repr

/-- The value of a constant literal. -/
def constToVal : PConst → Val
  | .intC i => .intV i
  | .strC s => .strV s
  | .boolC b => .boolV b
  | .noneC => .noneV

/-- Python truthiness for embedded values. -/
def truthy : Val → Bool
  | .intV i => decide (i ≠ 0)
  | .strV s => decide (s ≠ "")
  | .boolV b => b
  | .noneV => false
  | .listV [] => false
  | .listV (_ :: _) => true
  | .objV _ => true
  | .fnRef _ => true
  | .builtinRef _ => true
  | .wrapV => true

/-- Local environments (a frame's name bindings). -/
def Env : Type := String → Option Val

/-- Bind a name (assignment). -/
def Env.update (ε : Env) (x : String) (v : Val) : Env :=
  fun y => if y = x then some v else ε y

/-- The environment of an association list, first binding winning. -/
def envOfBinds (bs : List (String × Val)) : Env :=
  fun y => (bs.lookup y)

/-- A function definition as it exists at run time: parameter names,
keyword-only parameters with their already-evaluated default values (the
engine binds the wrapper into the injected parameter's default via the
`exec` locals), and a body. -/
structure FuncDef where
  params : List String
  kwonly : List (String × Val)
  body : PStmtList

/-- A program: the module's functions, other global bindings, and builtin
callables with their (opaque) behaviours. -/
structure Prog where
  funcs : String → Option FuncDef
  globals : String → Option Val
  builtins : String → Option (List Val → List (String × Val) → Except Err Val)

/-- Name resolution: locals, then globals, then builtins. -/
def lookupName (P : Prog) (ε : Env) (x : String) : Except Err Val :=
  match ε x with
  | some v => .ok v
  | none =>
      match P.globals x with
      | some v => .ok v
      | none => if (P.builtins x).isSome then .ok (.builtinRef x) else .error (.nameError x)

/-- Bind the still-unbound positional parameters from keyword arguments. -/
def bindRemaining : List String → List (String × Val) → Except Err (List (String × Val))
  | [], _ => .ok []
  | p :: rest, kws =>
      match kws.lookup p with
      | some v =>
          match bindRemaining rest kws with
          | .ok r => .ok ((p, v) :: r)
          | .error e => .error e
      | none => .error (.typeError ("missing required argument: " ++ p))

/-- Bind keyword-only parameters: a supplied keyword wins, otherwise the
default value. -/
def bindKwonly (kwonly : List (String × Val)) (kws : List (String × Val)) :
    List (String × Val) :=
  kwonly.map (fun pd => (pd.1, ((kws.lookup pd.1).getD pd.2)))

/-- Python call binding: positional arguments fill parameters in order,
keywords fill the rest and the keyword-only parameters; surplus
positionals, duplicate bindings, unknown keywords and missing parameters
raise `TypeError`. -/
def bindArgs (params : List String) (kwonly : List (String × Val))
    (args : List Val) (kws : List (String × Val)) : Except Err Env :=
  if params.length < args.length then
    .error (.typeError "too many positional arguments")
  else
    match bindRemaining (params.drop args.length) kws with
    | .error e => .error e
    | .ok remBound =>
        if kws.any (fun p => (params.take args.length).contains p.1) then
          .error (.typeError "multiple values for argument")
        else if kws.any
            (fun p => !(params.contains p.1 || (kwonly.map Prod.fst).contains p.1)) then
          .error (.typeError "unexpected keyword argument")
        else
          .ok (envOfBinds (params.zip args ++ remBound ++ bindKwonly kwonly kws))

/-- Python sequence indexing with negative-index support. -/
def pyIndex (elems : List Val) (i : Int) : Except Err Val :=
  if h : 0 ≤ i ∧ i < elems.length then
    .ok (elems.get ⟨i.toNat, by omega⟩)
  else if h2 : -(elems.length : Int) ≤ i ∧ i < 0 then
    .ok (elems.get ⟨(i + elems.length).toNat, by omega⟩)
  else
    .error .indexError

/-- Evaluation results: `none` is fuel exhaustion, `some (.error e)` a
raised exception, `some (.ok a)` a value. -/
def Sem (α : Type) : Type := Option (Except Err α)

/-- Successful result. -/
def Sem.ok {α : Type} (a : α) : Sem α := some (.ok a)

/-- Raised exception. -/
def Sem.err {α : Type} (e : Err) : Sem α := some (.error e)

/-- Sequencing: exceptions and fuel exhaustion propagate. -/
def Sem.bind {α β : Type} : Sem α → (α → Sem β) → Sem β
  | none, _ => none
  | some (.error e), _ => some (.error e)
  | some (.ok a), f => f a

/-- Statement outcome: fall through with an updated frame, or return. -/
inductive Ctl where
  | next (ε : Env)
  | ret (v : Val)

mutual

/-- Expression evaluation. -/
def evalExpr (P : Prog) (fuel : Nat) (ε : Env) : PExpr → Sem Val
  | .constant c _ => Sem.ok (constToVal c)
  | .name x _ => some (lookupName P ε x)
  | .attribute v a _ =>
      Sem.bind (evalExpr P fuel ε v) (fun w =>
        match w with
        | .objV fields =>
            match fields.lookup a with
            | some u => Sem.ok u
            | none => Sem.err (.attributeError a)
        | _ => Sem.err (.attributeError a))
  | .subscript v s _ =>
      Sem.bind (evalExpr P fuel ε v) (fun w =>
        Sem.bind (evalExpr P fuel ε s) (fun k =>
          match w, k with
          | .listV elems, .intV i => some (pyIndex elems i)
          | _, _ => Sem.err (.typeError "unsubscriptable")))
  | .call f args kws _ =>
      Sem.bind (evalExpr P fuel ε f) (fun vf =>
        Sem.bind (evalExprList P fuel ε args) (fun vargs =>
          Sem.bind (evalKeywords P fuel ε kws) (fun vkws =>
            applyVal P fuel vf vargs vkws)))
termination_by e => (fuel, 1, sizeOf e)

/-- Left-to-right evaluation of positional arguments. -/
def evalExprList (P : Prog) (fuel : Nat) (ε : Env) : PExprList → Sem (List Val)
  | .nil => Sem.ok []
  | .cons e rest =>
      Sem.bind (evalExpr P fuel ε e) (fun v =>
        Sem.bind (evalExprList P fuel ε rest) (fun vs =>
          Sem.ok (v :: vs)))
termination_by es => (fuel, 1, sizeOf es)

/-- Left-to-right evaluation of keyword arguments. -/
def evalKeywords (P : Prog) (fuel : Nat) (ε : Env) : PKeywords → Sem (List (String × Val))
  | .nil => Sem.ok []
  | .cons k v rest =>
      Sem.bind (evalExpr P fuel ε v) (fun w =>
        Sem.bind (evalKeywords P fuel ε rest) (fun ws =>
          Sem.ok ((k, w) :: ws)))
termination_by ks => (fuel, 1, sizeOf ks)

/-- Application.  The wrapper object applies its first argument to the
remaining arguments and keywords, exactly as the identity pass-through
wrapper `w(c, *args, **kwargs) = c(*args, **kwargs)` behaves; calling a
defined function consumes one unit of fuel and runs its body; builtins run
their opaque behaviours. -/
def applyVal (P : Prog) (fuel : Nat) (v : Val) (args : List Val)
    (kws : List (String × Val)) : Sem Val :=
  match v with
  | .wrapV =>
      match args with
      | a :: rest => applyVal P fuel a rest kws
      | [] => Sem.err (.typeError "wrapper needs a callable")
  | .fnRef g =>
      match P.funcs g with
      | none => Sem.err (.nameError g)
      | some d =>
          match fuel with
          | 0 => none
          | n + 1 =>
              Sem.bind (some (bindArgs d.params d.kwonly args kws)) (fun ε0 =>
                Sem.bind (execStmtList P n ε0 d.body) (fun ctl =>
                  match ctl with
                  | .ret rv => Sem.ok rv
                  | .next _ => Sem.ok .noneV))
  | .builtinRef b =>
      match P.builtins b with
      | some impl => some (impl args kws)
      | none => Sem.err (.nameError b)
  | _ => Sem.err (.typeError "object is not callable")
termination_by (fuel, 0, args.length)

/-- Statement execution. -/
def execStmt (P : Prog) (fuel : Nat) (ε : Env) : PStmt → Sem Ctl
  | .exprStmt e _ =>
      Sem.bind (evalExpr P fuel ε e) (fun _ => Sem.ok (.next ε))
  | .assign x e _ =>
      Sem.bind (evalExpr P fuel ε e) (fun v => Sem.ok (.next (ε.update x v)))
  | .ret e _ =>
      Sem.bind (evalExpr P fuel ε e) (fun v => Sem.ok (.ret v))
  | .ifStmt c body orelse _ =>
      Sem.bind (evalExpr P fuel ε c) (fun v =>
        if truthy v then execStmtList P fuel ε body else execStmtList P fuel ε orelse)
  | .whileStmt c body l =>
      Sem.bind (evalExpr P fuel ε c) (fun v =>
        if truthy v then
          Sem.bind (execStmtList P fuel ε body) (fun ctl =>
            match ctl with
            | .ret rv => Sem.ok (.ret rv)
            | .next ε' =>
                match fuel with
                | 0 => none
                | n + 1 => execStmt P n ε' (.whileStmt c body l))
        else Sem.ok (.next ε))
  | .functionDef _ _ _ _ _ _ _ =>
      -- Nested definitions create closures, which the engine refuses to
      -- handle and this semantic fragment leaves out.
      Sem.err (.typeError "nested function definitions unsupported")
termination_by s => (fuel, 1, sizeOf s)

/-- Statement-list execution. -/
def execStmtList (P : Prog) (fuel : Nat) (ε : Env) : PStmtList → Sem Ctl
  | .nil => Sem.ok (.next ε)
  | .cons s rest =>
      Sem.bind (execStmt P fuel ε s) (fun ctl =>
        match ctl with
        | .ret v => Sem.ok (.ret v)
        | .next ε' => execStmtList P fuel ε' rest)
termination_by ss => (fuel, 1, sizeOf ss)

end

/-- Call a program function on positional and keyword arguments: what
invoking the (possibly rewritten) function from outside does. -/
def callFunction (P : Prog) (fuel : Nat) (f : String) (args : List Val)
    (kws : List (String × Val)) : Sem Val :=
  applyVal P fuel (.fnRef f) args kws

/-! ## The rewritten program

`rewrite_wrap_calls_func` with default options corresponds to the
transformer configuration below: wrapper name `_recompyle_wrap`, no
decorator to strip, no filters.  The rewritten function is the target's
definition with the transformed body and one extra keyword-only parameter
whose default — the `Name(WRAP_NAME)` expression evaluated at `exec` time
against the pre-seeded locals `{WRAP_NAME: wrapper}` — is the wrapper
object itself. -/

/-- The transformer configuration of a plain
`rewrite_wrap_calls_func(target_func=f, wrapper=w)` call: `WRAP_NAME`
injected, `decorator_name=None`, no filters. -/
def plainCfg : TConfig := ⟨WRAP_NAME, none, [], []⟩

/-- The run-time effect of the rewrite on the target's definition:
transformed body, plus the injected trailing keyword-only parameter bound
to the wrapper object. -/
def rewriteFuncDef (d : FuncDef) (tb : PStmtList) : FuncDef :=
  ⟨d.params, d.kwonly ++ [(WRAP_NAME, .wrapV)], tb⟩

/-- The program after decoration: the target's binding now holds the
rewritten function; everything else is untouched. -/
def rewriteProg (P : Prog) (f : String) (tb : PStmtList) : Prog :=
  ⟨fun g => if g = f then (P.funcs g).map (fun d => rewriteFuncDef d tb) else P.funcs g,
    P.globals, P.builtins⟩

/-- Extend a frame with the wrapper binding (the injected keyword-only
parameter's value). -/
def addWrap (ε : Env) : Env :=
  fun y => if y = WRAP_NAME then some .wrapV else ε y


/-- `addWrap` on a statement outcome. -/
def ctlAddWrap : Ctl → Ctl
  | .next ε => .next (addWrap ε)
  | .ret v => .ret v

/-- `addWrap` on a statement-execution result. -/
def semMapCtl : Sem Ctl → Sem Ctl
  | none => none
  | some (.error e) => some (.error e)
  | some (.ok c) => some (.ok (ctlAddWrap c))

mutual

/-- The user-code hygiene condition: the reserved wrapper name
`_recompyle_wrap` is not mentioned — not read, not assigned, not used as a
keyword — anywhere in the code being rewritten. -/
def wrapFreeExpr : PExpr → Bool
  | .constant _ _ => true
  | .name x _ => decide (x ≠ WRAP_NAME)
  | .attribute v _ _ => wrapFreeExpr v
  | .subscript v s _ => wrapFreeExpr v && wrapFreeExpr s
  | .call f args kws _ => wrapFreeExpr f && wrapFreeExprList args && wrapFreeKeywords kws

/-- Wrap-freeness of expression lists. -/
def wrapFreeExprList : PExprList → Bool
  | .nil => true
  | .cons e rest => wrapFreeExpr e && wrapFreeExprList rest

/-- Wrap-freeness of keywords: keys must differ from the reserved name. -/
def wrapFreeKeywords : PKeywords → Bool
  | .nil => true
  | .cons k v rest => decide (k ≠ WRAP_NAME) && wrapFreeExpr v && wrapFreeKeywords rest

/-- Wrap-freeness of statements.  Nested `functionDef`s are unconstrained:
the semantic fragment rejects them uniformly. -/
def wrapFreeStmt : PStmt → Bool
  | .exprStmt e _ => wrapFreeExpr e
  | .assign t e _ => decide (t ≠ WRAP_NAME) && wrapFreeExpr e
  | .ret e _ => wrapFreeExpr e
  | .ifStmt c body orelse _ => wrapFreeExpr c && wrapFreeStmtList body && wrapFreeStmtList orelse
  | .whileStmt c body _ => wrapFreeExpr c && wrapFreeStmtList body
  | .functionDef _ _ _ _ _ _ _ => true

/-- Wrap-freeness of statement lists. -/
def wrapFreeStmtList : PStmtList → Bool
  | .nil => true
  | .cons s rest => wrapFreeStmt s && wrapFreeStmtList rest

end

/-- A program is wrap-free when no function mentions the reserved name in
its parameters, keyword-only parameters or body. -/
def WrapFreeProg (P : Prog) : Prop :=
  ∀ g d, P.funcs g = some d →
    WRAP_NAME ∉ d.params ∧ WRAP_NAME ∉ d.kwonly.map Prod.fst ∧
      wrapFreeStmtList d.body = true

/-! ### Association-list lemmas for the binding argument -/

theorem lookupOfAppend {α β : Type} [BEq α] (l₁ l₂ : List (α × β)) (a : α) :
    (l₁ ++ l₂).lookup a = ((l₁.lookup a).or (l₂.lookup a)) := by
  induction l₁ with
  | nil => simp [List.lookup, Option.or]
  | cons p rest ih =>
      cases p with
      | mk k b =>
          cases h : a == k with
          | true => simp [List.lookup, h, Option.or]
          | false => simp [List.lookup, h, ih]

theorem lookupEqNone {β : Type} (l : List (String × β)) (a : String)
    (h : a ∉ l.map Prod.fst) : l.lookup a = none := by
  induction l with
  | nil => simp [List.lookup]
  | cons p rest ih =>
      simp only [List.map_cons, List.mem_cons] at h
      push_neg at h
      have hb : (a == p.1) = false := beq_eq_false_iff_ne.mpr h.1
      cases p with
      | mk k b =>
          simp only [List.lookup]
          rw [show (a == k) = false from hb]
          exact ih h.2

/-- Appending the wrapper binding at the end of an association list whose
keys avoid the reserved name yields the `addWrap` of its environment. -/
theorem envOfBindsAppendWrap (bs : List (String × Val))
    (h : WRAP_NAME ∉ bs.map Prod.fst) :
    envOfBinds (bs ++ [(WRAP_NAME, .wrapV)]) = addWrap (envOfBinds bs) := by
  funext y
  simp only [envOfBinds, addWrap, lookupOfAppend]
  by_cases hy : y = WRAP_NAME
  · subst hy
    rw [lookupEqNone bs _ h]
    simp [List.lookup, Option.or]
  · have h2 : ([(WRAP_NAME, Val.wrapV)].lookup y) = none := by
      simp only [List.lookup]
      rw [show (y == WRAP_NAME) = false from beq_eq_false_iff_ne.mpr hy]
    rw [h2, if_neg hy]
    cases bs.lookup y <;> simp [Option.or]

/-- `bindKwonly` distributes over the appended wrapper parameter; since the
call site supplies no keyword for the reserved name, the default — the
wrapper object — is taken. -/
theorem bindKwonlyAppendWrap (kwonly : List (String × Val))
    (kws : List (String × Val)) (hkw : WRAP_NAME ∉ kws.map Prod.fst) :
    bindKwonly (kwonly ++ [(WRAP_NAME, .wrapV)]) kws =
      bindKwonly kwonly kws ++ [(WRAP_NAME, .wrapV)] := by
  simp [bindKwonly, lookupEqNone kws _ hkw]

theorem bindRemainingKeys (ps : List String) (kws : List (String × Val))
    (bs : List (String × Val)) (h : bindRemaining ps kws = .ok bs) :
    bs.map Prod.fst = ps := by
  induction ps generalizing bs with
  | nil =>
      simp only [bindRemaining, Except.ok.injEq] at h
      simp [← h]
  | cons p rest ih =>
      simp only [bindRemaining] at h
      cases hl : kws.lookup p with
      | none => rw [hl] at h; cases h
      | some v =>
          rw [hl] at h
          cases hr : bindRemaining rest kws with
          | error e => rw [hr] at h; cases h
          | ok r =>
              rw [hr] at h
              cases h
              simp [ih r hr]

theorem containsEqMem (l : List String) (x : String) :
    l.contains x = decide (x ∈ l) := by
  simp [List.contains, List.elem_eq_mem]

theorem bindKwonlyKeys (kwonly kws : List (String × Val)) :
    (bindKwonly kwonly kws).map Prod.fst = kwonly.map Prod.fst := by
  unfold bindKwonly
  rw [List.map_map]
  simp

theorem anyCongr {α : Type} (l : List α) (f g : α → Bool)
    (h : ∀ x ∈ l, f x = g x) : l.any f = l.any g := by
  induction l with
  | nil => rfl
  | cons x rest ih =>
      simp only [List.any_cons]
      rw [h x (by simp), ih (fun y hy => h y (by simp [hy]))]

theorem memMapFstZip {α β : Type} (l₁ : List α) (l₂ : List β) (x : α)
    (h : x ∈ (l₁.zip l₂).map Prod.fst) : x ∈ l₁ := by
  obtain ⟨p, hp, hx⟩ := List.mem_map.mp h
  cases p with
  | mk a b =>
      cases hx
      exact (List.of_mem_zip hp).1

/-- The central binding lemma: binding the same call against the rewritten
definition (wrapper parameter appended) produces exactly the original
frame extended with the wrapper binding, provided the reserved name is not
among the parameters or supplied keywords. -/
theorem bindArgsAddWrap (params : List String) (kwonly : List (String × Val))
    (args : List Val) (kws : List (String × Val))
    (hp : WRAP_NAME ∉ params) (hko : WRAP_NAME ∉ kwonly.map Prod.fst)
    (hkw : WRAP_NAME ∉ kws.map Prod.fst) :
    bindArgs params (kwonly ++ [(WRAP_NAME, .wrapV)]) args kws =
      (bindArgs params kwonly args kws).map addWrap := by
  unfold bindArgs
  by_cases hlen : params.length < args.length
  · simp [hlen, Except.map]
  · simp only [if_neg hlen]
    cases hr : bindRemaining (params.drop args.length) kws with
    | error e => simp [Except.map]
    | ok rem =>
        cases hdup : kws.any (fun p => (params.take args.length).contains p.1) with
        | true => simp [Except.map]
        | false =>
            simp only [Bool.false_eq_true, if_false]
            have hexp : (kws.any (fun p =>
                !(params.contains p.1 ||
                  (((kwonly ++ [(WRAP_NAME, Val.wrapV)]).map Prod.fst).contains p.1)))) =
                (kws.any (fun p =>
                  !(params.contains p.1 || ((kwonly.map Prod.fst).contains p.1)))) := by
              apply anyCongr
              intro p hmem
              have hpne : p.1 ≠ WRAP_NAME := by
                intro hEq
                exact hkw (hEq ▸ List.mem_map_of_mem Prod.fst hmem)
              have : (((kwonly ++ [(WRAP_NAME, Val.wrapV)]).map Prod.fst).contains p.1) =
                  ((kwonly.map Prod.fst).contains p.1) := by
                rw [containsEqMem, containsEqMem]
                exact decide_eq_decide.mpr (by
                  simp only [List.map_append, List.map_cons, List.map_nil,
                    List.mem_append, List.mem_singleton]
                  constructor
                  · rintro (hin | hin)
                    · exact hin
                    · exact absurd hin hpne
                  · intro hin
                    exact Or.inl hin)
              rw [this]
            rw [hexp]
            cases hun : kws.any (fun p =>
                !(params.contains p.1 || ((kwonly.map Prod.fst).contains p.1))) with
            | true => simp [Except.map]
            | false =>
                simp only [Bool.false_eq_true, if_false, Except.map]
                rw [bindKwonlyAppendWrap kwonly kws hkw]
                rw [← List.append_assoc]
                rw [envOfBindsAppendWrap]
                intro hmem
                simp only [List.map_append, List.mem_append] at hmem
                rcases hmem with (hmem | hmem) | hmem
                · exact hp (memMapFstZip params args _ hmem)
                · rw [bindRemainingKeys _ _ _ hr] at hmem
                  exact hp (List.mem_of_mem_drop hmem)
                · rw [bindKwonlyKeys] at hmem
                  exact hko hmem

/-! ### Evaluator unfolding and sequencing lemmas -/

theorem semBindOk {α β : Type} (a : α) (f : α → Sem β) : Sem.bind (Sem.ok a) f = f a := rfl

theorem semBindErr {α β : Type} (e : Err) (f : α → Sem β) :
    Sem.bind (Sem.err e) f = Sem.err e := rfl

theorem semBindNone {α β : Type} (f : α → Sem β) : Sem.bind none f = none := rfl

theorem semBindAssoc {α β γ : Type} (x : Sem α) (f : α → Sem β) (g : β → Sem γ) :
    Sem.bind (Sem.bind x f) g = Sem.bind x (fun a => Sem.bind (f a) g) := by
  cases x with
  | none => rfl
  | some r => cases r <;> rfl

theorem exBindOk {ε α β : Type} (a : α) (f : α → Except ε β) :
    (Except.ok a >>= f) = f a := rfl

theorem exBindErr {ε α β : Type} (e : ε) (f : α → Except ε β) :
    (Except.error e >>= f : Except ε β) = Except.error e := rfl

theorem evalExprConstant (P : Prog) (fuel : Nat) (ε : Env) (c : PConst) (l : Int) :
    evalExpr P fuel ε (.constant c l) = Sem.ok (constToVal c) := by
  simp [evalExpr]

theorem evalExprName (P : Prog) (fuel : Nat) (ε : Env) (x : String) (l : Int) :
    evalExpr P fuel ε (.name x l) = some (lookupName P ε x) := by
  simp [evalExpr]

theorem evalExprAttribute (P : Prog) (fuel : Nat) (ε : Env) (v : PExpr) (a : String) (l : Int) :
    evalExpr P fuel ε (.attribute v a l) =
      Sem.bind (evalExpr P fuel ε v) (fun w =>
        match w with
        | .objV fields =>
            match fields.lookup a with
            | some u => Sem.ok u
            | none => Sem.err (.attributeError a)
        | _ => Sem.err (.attributeError a)) := by
  simp [evalExpr]

theorem evalExprSubscript (P : Prog) (fuel : Nat) (ε : Env) (v s : PExpr) (l : Int) :
    evalExpr P fuel ε (.subscript v s l) =
      Sem.bind (evalExpr P fuel ε v) (fun w =>
        Sem.bind (evalExpr P fuel ε s) (fun k =>
          match w, k with
          | .listV elems, .intV i => some (pyIndex elems i)
          | _, _ => Sem.err (.typeError "unsubscriptable"))) := by
  simp [evalExpr]

theorem evalExprCall (P : Prog) (fuel : Nat) (ε : Env) (f : PExpr) (args : PExprList)
    (kws : PKeywords) (l : Int) :
    evalExpr P fuel ε (.call f args kws l) =
      Sem.bind (evalExpr P fuel ε f) (fun vf =>
        Sem.bind (evalExprList P fuel ε args) (fun vargs =>
          Sem.bind (evalKeywords P fuel ε kws) (fun vkws =>
            applyVal P fuel vf vargs vkws))) := by
  simp [evalExpr]

theorem evalExprListNil (P : Prog) (fuel : Nat) (ε : Env) :
    evalExprList P fuel ε .nil = Sem.ok [] := by
  simp [evalExprList]

theorem evalExprListCons (P : Prog) (fuel : Nat) (ε : Env) (e : PExpr) (rest : PExprList) :
    evalExprList P fuel ε (.cons e rest) =
      Sem.bind (evalExpr P fuel ε e) (fun v =>
        Sem.bind (evalExprList P fuel ε rest) (fun vs =>
          Sem.ok (v :: vs))) := by
  simp [evalExprList]

theorem evalKeywordsNil (P : Prog) (fuel : Nat) (ε : Env) :
    evalKeywords P fuel ε .nil = Sem.ok [] := by
  simp [evalKeywords]

theorem evalKeywordsCons (P : Prog) (fuel : Nat) (ε : Env) (k : String) (v : PExpr)
    (rest : PKeywords) :
    evalKeywords P fuel ε (.cons k v rest) =
      Sem.bind (evalExpr P fuel ε v) (fun w =>
        Sem.bind (evalKeywords P fuel ε rest) (fun ws =>
          Sem.ok ((k, w) :: ws))) := by
  simp [evalKeywords]

theorem applyValWrap (P : Prog) (fuel : Nat) (a : Val) (rest : List Val)
    (kws : List (String × Val)) :
    applyVal P fuel .wrapV (a :: rest) kws = applyVal P fuel a rest kws := by
  simp [applyVal]

theorem applyValWrapNil (P : Prog) (fuel : Nat) (kws : List (String × Val)) :
    applyVal P fuel .wrapV [] kws = Sem.err (.typeError "wrapper needs a callable") := by
  simp [applyVal]

theorem applyValFnRef (P : Prog) (fuel : Nat) (g : String) (args : List Val)
    (kws : List (String × Val)) :
    applyVal P fuel (.fnRef g) args kws =
      (match P.funcs g with
       | none => Sem.err (.nameError g)
       | some d =>
           match fuel with
           | 0 => none
           | n + 1 =>
               Sem.bind (some (bindArgs d.params d.kwonly args kws)) (fun ε0 =>
                 Sem.bind (execStmtList P n ε0 d.body) (fun ctl =>
                   match ctl with
                   | .ret rv => Sem.ok rv
                   | .next _ => Sem.ok .noneV))) := by
  simp [applyVal]

theorem applyValBuiltin (P : Prog) (fuel : Nat) (b : String) (args : List Val)
    (kws : List (String × Val)) :
    applyVal P fuel (.builtinRef b) args kws =
      (match P.builtins b with
       | some impl => some (impl args kws)
       | none => Sem.err (.nameError b)) := by
  simp [applyVal]

theorem execStmtExpr (P : Prog) (fuel : Nat) (ε : Env) (e : PExpr) (l : Int) :
    execStmt P fuel ε (.exprStmt e l) =
      Sem.bind (evalExpr P fuel ε e) (fun _ => Sem.ok (.next ε)) := by
  simp [execStmt]

theorem execStmtAssign (P : Prog) (fuel : Nat) (ε : Env) (x : String) (e : PExpr) (l : Int) :
    execStmt P fuel ε (.assign x e l) =
      Sem.bind (evalExpr P fuel ε e) (fun v => Sem.ok (.next (ε.update x v))) := by
  simp [execStmt]

theorem execStmtRet (P : Prog) (fuel : Nat) (ε : Env) (e : PExpr) (l : Int) :
    execStmt P fuel ε (.ret e l) =
      Sem.bind (evalExpr P fuel ε e) (fun v => Sem.ok (.ret v)) := by
  simp [execStmt]

theorem execStmtIf (P : Prog) (fuel : Nat) (ε : Env) (c : PExpr) (body orelse : PStmtList)
    (l : Int) :
    execStmt P fuel ε (.ifStmt c body orelse l) =
      Sem.bind (evalExpr P fuel ε c) (fun v =>
        if truthy v then execStmtList P fuel ε body else execStmtList P fuel ε orelse) := by
  simp [execStmt]

theorem execStmtWhile (P : Prog) (fuel : Nat) (ε : Env) (c : PExpr) (body : PStmtList)
    (l : Int) :
    execStmt P fuel ε (.whileStmt c body l) =
      Sem.bind (evalExpr P fuel ε c) (fun v =>
        if truthy v then
          Sem.bind (execStmtList P fuel ε body) (fun ctl =>
            match ctl with
            | .ret rv => Sem.ok (.ret rv)
            | .next ε' =>
                match fuel with
                | 0 => none
                | n + 1 => execStmt P n ε' (.whileStmt c body l))
        else Sem.ok (.next ε)) := by
  rw [execStmt]

theorem execStmtDef (P : Prog) (fuel : Nat) (ε : Env) (fn : String) (ps ks : List String)
    (kd decos : PExprList) (body : PStmtList) (l : Int) :
    execStmt P fuel ε (.functionDef fn ps ks kd decos body l) =
      Sem.err (.typeError "nested function definitions unsupported") := by
  simp [execStmt]

theorem execStmtListNil (P : Prog) (fuel : Nat) (ε : Env) :
    execStmtList P fuel ε .nil = Sem.ok (.next ε) := by
  simp [execStmtList]

theorem execStmtListCons (P : Prog) (fuel : Nat) (ε : Env) (s : PStmt) (rest : PStmtList) :
    execStmtList P fuel ε (.cons s rest) =
      Sem.bind (execStmt P fuel ε s) (fun ctl =>
        match ctl with
        | .ret v => Sem.ok (.ret v)
        | .next ε' => execStmtList P fuel ε' rest) := by
  simp [execStmtList]

/-! ### Environment and lookup lemmas -/

theorem lookupNameRewrite (P : Prog) (f : String) (tb : PStmtList) (ε : Env) (x : String) :
    lookupName (rewriteProg P f tb) ε x = lookupName P ε x := rfl

theorem addWrapAtWrap (ε : Env) : addWrap ε WRAP_NAME = some Val.wrapV := by
  simp [addWrap]

theorem addWrapAtOther (ε : Env) (x : String) (h : x ≠ WRAP_NAME) : addWrap ε x = ε x := by
  simp [addWrap, h]

theorem lookupNameAddWrap (P : Prog) (ε : Env) (x : String) (h : x ≠ WRAP_NAME) :
    lookupName P (addWrap ε) x = lookupName P ε x := by
  simp [lookupName, addWrapAtOther ε x h]

theorem lookupNameWrap (P : Prog) (ε : Env) :
    lookupName P (addWrap ε) WRAP_NAME = .ok .wrapV := by
  simp [lookupName, addWrapAtWrap]

theorem addWrapUpdate (ε : Env) (x : String) (v : Val) (h : x ≠ WRAP_NAME) :
    addWrap (ε.update x v) = (addWrap ε).update x v := by
  funext y
  by_cases hy : y = WRAP_NAME
  · subst hy
    simp [addWrap, Env.update, Ne.symm h]
  · simp [addWrap, Env.update, hy]

/-- Keys of a keyword list (syntactic). -/
def PKeywords.keys : PKeywords → List String
  | .nil => []
  | .cons k _ rest => k :: rest.keys

theorem evalKeywordsKeys (P : Prog) (fuel : Nat) (ε : Env) :
    ∀ (ks : PKeywords) (l : List (String × Val)),
      evalKeywords P fuel ε ks = Sem.ok l → l.map Prod.fst = ks.keys
  | .nil, l, h => by
      rw [evalKeywordsNil] at h
      cases h
      rfl
  | .cons k v rest, l, h => by
      rw [evalKeywordsCons] at h
      cases hv : evalExpr P fuel ε v with
      | none => rw [hv] at h; cases h
      | some r =>
          cases r with
          | error e => rw [hv] at h; cases h
          | ok w =>
              rw [hv] at h
              rw [show Sem.bind (some (.ok w)) _ = _ from semBindOk w _] at h
              cases hr : evalKeywords P fuel ε rest with
              | none => rw [hr] at h; cases h
              | some r2 =>
                  cases r2 with
                  | error e => rw [hr] at h; cases h
                  | ok ws =>
                      rw [hr] at h
                      rw [show Sem.bind (some (.ok ws)) _ = _ from semBindOk ws _] at h
                      cases h
                      simp [PKeywords.keys, evalKeywordsKeys P fuel ε rest ws hr]

theorem wrapFreeKeywordsKeys :
    ∀ (ks : PKeywords), wrapFreeKeywords ks = true → WRAP_NAME ∉ ks.keys
  | .nil, _ => by simp [PKeywords.keys]
  | .cons k v rest, h => by
      simp only [wrapFreeKeywords, Bool.and_eq_true, decide_eq_true_eq] at h
      simp only [PKeywords.keys, List.mem_cons]
      rintro (hk | hk)
      · exact h.1.1 hk.symm
      · exact wrapFreeKeywordsKeys rest h.2 hk

theorem allowWrapCallNil (node : PExpr) :
    allowWrapCall [] [] node = .ok (!calleeIsNamespaceReflection node) := by
  unfold allowWrapCall
  cases h : calleeIsNamespaceReflection node <;> simp [h]

theorem allowWrapCallPlain (node : PExpr) :
    allowWrapCall plainCfg.blacklist plainCfg.whitelist node =
      .ok (!calleeIsNamespaceReflection node) := by
  rw [show plainCfg.blacklist = [] from rfl, show plainCfg.whitelist = [] from rfl]
  exact allowWrapCallNil node

/-! ## Call transparency of the rewrite (engine + identity wrapper)

The simulation argument: with `P` the original program, `fname` the target
function and `tbody` its transformed body, every computation of the
rewritten program agrees with the original.  Plain (untransformed) code
evaluates identically under both programs; transformed code evaluates,
under the frame extended with the wrapper binding, to exactly the original
result; and application of any value is program-independent.  All three
statements are proved together by the evaluator's own recursion scheme. -/

/-- The decoration context for the transparency proof: the program, the
target, its definition, the transformed body, and the hygiene facts. -/
structure SimCtx where
  P : Prog
  fname : String
  fdef : FuncDef
  tbody : PStmtList
  adjIn : Int
  adjOut : Int
  wf : WrapFreeProg P
  hfn : P.funcs fname = some fdef
  htr : transformStmtList plainCfg adjIn fdef.body = .ok (tbody, adjOut)

/-- The program after decoration. -/
def SimCtx.rewritten (C : SimCtx) : Prog := rewriteProg C.P C.fname C.tbody

set_option maxHeartbeats 2000000

mutual

theorem applyValSim (C : SimCtx) (fuel : Nat) (v : Val) (args : List Val)
    (kws : List (String × Val)) (hkw : WRAP_NAME ∉ kws.map Prod.fst) :
    applyVal C.rewritten fuel v args kws = applyVal C.P fuel v args kws := by
  cases v with
  | wrapV =>
      cases args with
      | nil => rw [applyValWrapNil, applyValWrapNil]
      | cons a rest =>
          rw [applyValWrap, applyValWrap]
          exact applyValSim C fuel a rest kws hkw
  | fnRef g =>
      rw [applyValFnRef, applyValFnRef]
      by_cases hg : g = C.fname
      · subst hg
        have h1 : C.rewritten.funcs C.fname = some (rewriteFuncDef C.fdef C.tbody) := by
          simp [SimCtx.rewritten, rewriteProg, C.hfn]
        rw [h1, C.hfn]
        cases fuel with
        | zero => rfl
        | succ n =>
            dsimp only [rewriteFuncDef]
            obtain ⟨hp, hko, hbody⟩ := C.wf C.fname C.fdef C.hfn
            rw [bindArgsAddWrap C.fdef.params C.fdef.kwonly args kws hp hko hkw]
            cases hb : bindArgs C.fdef.params C.fdef.kwonly args kws with
            | error e => rfl
            | ok ε0 =>
                have h5 : (Except.ok ε0 : Except Err Env).map addWrap =
                    Except.ok (addWrap ε0) := rfl
                rw [h5]
                rw [show Sem.bind (some (Except.ok (addWrap ε0))) _ = _ from
                  semBindOk (addWrap ε0) _]
                rw [show Sem.bind (some (Except.ok ε0)) _ = _ from semBindOk ε0 _]
                rw [execStmtListSim C n ε0 C.fdef.body C.tbody C.adjIn C.adjOut hbody C.htr]
                cases hX : execStmtList C.P n ε0 C.fdef.body with
                | none => rfl
                | some r =>
                    cases r with
                    | error e => rfl
                    | ok ctl => cases ctl <;> rfl
      · have h1 : C.rewritten.funcs g = C.P.funcs g := by
          simp [SimCtx.rewritten, rewriteProg, hg]
        rw [h1]
        cases hfg : C.P.funcs g with
        | none => rfl
        | some dg =>
            cases fuel with
            | zero => rfl
            | succ n =>
                dsimp only
                obtain ⟨_, _, hbody⟩ := C.wf g dg hfg
                cases hb : bindArgs dg.params dg.kwonly args kws with
                | error e => rfl
                | ok ε0 =>
                    rw [show Sem.bind (some (Except.ok ε0)) _ = _ from semBindOk ε0 _]
                    rw [show Sem.bind (some (Except.ok ε0)) _ = _ from semBindOk ε0 _]
                    rw [execStmtListPlainSim C n ε0 dg.body hbody]
  | builtinRef b =>
      rw [applyValBuiltin, applyValBuiltin]
      rfl
  | intV i => simp [applyVal]
  | strV s => simp [applyVal]
  | boolV b => simp [applyVal]
  | noneV => simp [applyVal]
  | listV es => simp [applyVal]
  | objV fs => simp [applyVal]
termination_by (fuel, 0, args.length)

theorem evalExprPlainSim (C : SimCtx) (fuel : Nat) (ε : Env) :
    ∀ (e : PExpr), wrapFreeExpr e = true →
      evalExpr C.rewritten fuel ε e = evalExpr C.P fuel ε e
  | .constant c l, _ => by rw [evalExprConstant, evalExprConstant]
  | .name x l, _ => by
      rw [evalExprName, evalExprName]
      rfl
  | .attribute v a l, he => by
      simp only [wrapFreeExpr] at he
      rw [evalExprAttribute, evalExprAttribute, evalExprPlainSim C fuel ε v he]
  | .subscript v s l, he => by
      simp only [wrapFreeExpr, Bool.and_eq_true] at he
      rw [evalExprSubscript, evalExprSubscript, evalExprPlainSim C fuel ε v he.1,
        evalExprPlainSim C fuel ε s he.2]
  | .call f args kws l, he => by
      simp only [wrapFreeExpr, Bool.and_eq_true] at he
      rw [evalExprCall, evalExprCall, evalExprPlainSim C fuel ε f he.1.1,
        evalExprListPlainSim C fuel ε args he.1.2, evalKeywordsPlainSim C fuel ε kws he.2]
      cases hf : evalExpr C.P fuel ε f with
      | none => rfl
      | some rf =>
          cases rf with
          | error e => rfl
          | ok vf =>
              rw [show Sem.bind (some (Except.ok vf)) _ = _ from semBindOk vf _,
                show Sem.bind (some (Except.ok vf)) _ = _ from semBindOk vf _]
              cases ha : evalExprList C.P fuel ε args with
              | none => rfl
              | some ra =>
                  cases ra with
                  | error e => rfl
                  | ok vargs =>
                      rw [show Sem.bind (some (Except.ok vargs)) _ = _ from semBindOk vargs _,
                        show Sem.bind (some (Except.ok vargs)) _ = _ from semBindOk vargs _]
                      cases hk : evalKeywords C.P fuel ε kws with
                      | none => rfl
                      | some rk =>
                          cases rk with
                          | error e => rfl
                          | ok vkws =>
                              rw [show Sem.bind (some (Except.ok vkws)) _ = _ from
                                  semBindOk vkws _,
                                show Sem.bind (some (Except.ok vkws)) _ = _ from
                                  semBindOk vkws _]
                              refine applyValSim C fuel vf vargs vkws ?_
                              rw [evalKeywordsKeys C.P fuel ε kws vkws hk]
                              exact wrapFreeKeywordsKeys kws he.2
termination_by e _ => (fuel, 1, sizeOf e)

theorem evalExprListPlainSim (C : SimCtx) (fuel : Nat) (ε : Env) :
    ∀ (es : PExprList), wrapFreeExprList es = true →
      evalExprList C.rewritten fuel ε es = evalExprList C.P fuel ε es
  | .nil, _ => by rw [evalExprListNil, evalExprListNil]
  | .cons e rest, he => by
      simp only [wrapFreeExprList, Bool.and_eq_true] at he
      rw [evalExprListCons, evalExprListCons, evalExprPlainSim C fuel ε e he.1,
        evalExprListPlainSim C fuel ε rest he.2]
termination_by es _ => (fuel, 1, sizeOf es)

theorem evalKeywordsPlainSim (C : SimCtx) (fuel : Nat) (ε : Env) :
    ∀ (ks : PKeywords), wrapFreeKeywords ks = true →
      evalKeywords C.rewritten fuel ε ks = evalKeywords C.P fuel ε ks
  | .nil, _ => by rw [evalKeywordsNil, evalKeywordsNil]
  | .cons k v rest, he => by
      simp only [wrapFreeKeywords, Bool.and_eq_true] at he
      rw [evalKeywordsCons, evalKeywordsCons, evalExprPlainSim C fuel ε v he.1.2,
        evalKeywordsPlainSim C fuel ε rest he.2]
termination_by ks _ => (fuel, 1, sizeOf ks)

theorem execStmtPlainSim (C : SimCtx) (fuel : Nat) (ε : Env) :
    ∀ (s : PStmt), wrapFreeStmt s = true →
      execStmt C.rewritten fuel ε s = execStmt C.P fuel ε s
  | .exprStmt e l, hs => by
      simp only [wrapFreeStmt] at hs
      rw [execStmtExpr, execStmtExpr, evalExprPlainSim C fuel ε e hs]
  | .assign x e l, hs => by
      simp only [wrapFreeStmt, Bool.and_eq_true] at hs
      rw [execStmtAssign, execStmtAssign, evalExprPlainSim C fuel ε e hs.2]
  | .ret e l, hs => by
      simp only [wrapFreeStmt] at hs
      rw [execStmtRet, execStmtRet, evalExprPlainSim C fuel ε e hs]
  | .ifStmt c body orelse l, hs => by
      simp only [wrapFreeStmt, Bool.and_eq_true] at hs
      rw [execStmtIf, execStmtIf, evalExprPlainSim C fuel ε c hs.1.1]
      cases hc : evalExpr C.P fuel ε c with
      | none => rfl
      | some rc =>
          cases rc with
          | error e => rfl
          | ok vc =>
              rw [show Sem.bind (some (Except.ok vc)) _ = _ from semBindOk vc _,
                show Sem.bind (some (Except.ok vc)) _ = _ from semBindOk vc _]
              cases truthy vc with
              | true =>
                  simp only [if_true]
                  exact execStmtListPlainSim C fuel ε body hs.1.2
              | false =>
                  simp only [Bool.false_eq_true, if_false]
                  exact execStmtListPlainSim C fuel ε orelse hs.2
  | .whileStmt c body l, hs => by
      simp only [wrapFreeStmt, Bool.and_eq_true] at hs
      rw [execStmtWhile, execStmtWhile, evalExprPlainSim C fuel ε c hs.1]
      cases hc : evalExpr C.P fuel ε c with
      | none => rfl
      | some rc =>
          cases rc with
          | error e => rfl
          | ok vc =>
              rw [show Sem.bind (some (Except.ok vc)) _ = _ from semBindOk vc _,
                show Sem.bind (some (Except.ok vc)) _ = _ from semBindOk vc _]
              cases truthy vc with
              | false => simp only [Bool.false_eq_true, if_false]
              | true =>
                  simp only [if_true]
                  rw [execStmtListPlainSim C fuel ε body hs.2]
                  cases hB : execStmtList C.P fuel ε body with
                  | none => rfl
                  | some rb =>
                      cases rb with
                      | error e => rfl
                      | ok ctl =>
                          cases ctl with
                          | ret rv => rfl
                          | next ε2 =>
                              rw [show Sem.bind (some (Except.ok (Ctl.next ε2))) _ = _ from
                                  semBindOk (Ctl.next ε2) _,
                                show Sem.bind (some (Except.ok (Ctl.next ε2))) _ = _ from
                                  semBindOk (Ctl.next ε2) _]
                              cases fuel with
                              | zero => rfl
                              | succ n =>
                                  exact execStmtPlainSim C n ε2 (.whileStmt c body l)
                                    (by simp [wrapFreeStmt, hs.1, hs.2])
  | .functionDef fn ps ks kd decos body l, _ => by
      rw [execStmtDef, execStmtDef]
termination_by s _ => (fuel, 1, sizeOf s)

theorem execStmtListPlainSim (C : SimCtx) (fuel : Nat) (ε : Env) :
    ∀ (ss : PStmtList), wrapFreeStmtList ss = true →
      execStmtList C.rewritten fuel ε ss = execStmtList C.P fuel ε ss
  | .nil, _ => by rw [execStmtListNil, execStmtListNil]
  | .cons s rest, hs => by
      simp only [wrapFreeStmtList, Bool.and_eq_true] at hs
      rw [execStmtListCons, execStmtListCons, execStmtPlainSim C fuel ε s hs.1]
      cases hS : execStmt C.P fuel ε s with
      | none => rfl
      | some rs =>
          cases rs with
          | error e => rfl
          | ok ctl =>
              cases ctl with
              | ret rv => rfl
              | next ε2 =>
                  rw [show Sem.bind (some (Except.ok (Ctl.next ε2))) _ = _ from
                      semBindOk (Ctl.next ε2) _,
                    show Sem.bind (some (Except.ok (Ctl.next ε2))) _ = _ from
                      semBindOk (Ctl.next ε2) _]
                  exact execStmtListPlainSim C fuel ε2 rest hs.2
termination_by ss _ => (fuel, 1, sizeOf ss)

theorem evalExprSim (C : SimCtx) (fuel : Nat) (ε : Env) :
    ∀ (e te : PExpr), wrapFreeExpr e = true → transformExpr plainCfg e = .ok te →
      evalExpr C.rewritten fuel (addWrap ε) te = evalExpr C.P fuel ε e
  | .constant c l, te, _, htre => by
      simp only [transformExpr, Except.ok.injEq] at htre
      subst htre
      rw [evalExprConstant, evalExprConstant]
  | .name x l, te, he, htre => by
      simp only [wrapFreeExpr, decide_eq_true_eq] at he
      simp only [transformExpr, Except.ok.injEq] at htre
      subst htre
      rw [evalExprName, evalExprName, lookupNameAddWrap _ _ _ he]
      rfl
  | .attribute v a l, te, he, htre => by
      simp only [wrapFreeExpr] at he
      simp only [transformExpr] at htre
      cases htv : transformExpr plainCfg v with
      | error e => rw [htv] at htre; cases htre
      | ok v' =>
          rw [htv, exBindOk] at htre
          cases htre
          rw [evalExprAttribute, evalExprAttribute, evalExprSim C fuel ε v v' he htv]
  | .subscript v s l, te, he, htre => by
      simp only [wrapFreeExpr, Bool.and_eq_true] at he
      simp only [transformExpr] at htre
      cases htv : transformExpr plainCfg v with
      | error e => rw [htv] at htre; cases htre
      | ok v' =>
          rw [htv, exBindOk] at htre
          cases hts : transformExpr plainCfg s with
          | error e => rw [hts] at htre; cases htre
          | ok s' =>
              rw [hts, exBindOk] at htre
              cases htre
              rw [evalExprSubscript, evalExprSubscript, evalExprSim C fuel ε v v' he.1 htv,
                evalExprSim C fuel ε s s' he.2 hts]
  | .call f args kws l, te, he, htre => by
      simp only [wrapFreeExpr, Bool.and_eq_true] at he
      simp only [transformExpr] at htre
      rw [allowWrapCallPlain (.call f args kws l), exBindOk] at htre
      cases htf : transformExpr plainCfg f with
      | error e => rw [htf, exBindErr] at htre; cases htre
      | ok f' =>
          rw [htf, exBindOk] at htre
          cases hta : transformExprList plainCfg args with
          | error e => rw [hta, exBindErr] at htre; cases htre
          | ok args' =>
              rw [hta, exBindOk] at htre
              cases htk : transformKeywords plainCfg kws with
              | error e => rw [htk, exBindErr] at htre; cases htre
              | ok kws' =>
                  rw [htk, exBindOk] at htre
                  cases hrefl : calleeIsNamespaceReflection (.call f args kws l) with
                  | false =>
                      rw [hrefl] at htre
                      simp only [Bool.not_false, if_true, Except.ok.injEq] at htre
                      subst htre
                      rw [evalExprCall, evalExprCall, evalExprName,
                        show plainCfg.wrapName = WRAP_NAME from rfl, lookupNameWrap,
                        show Sem.bind (some (Except.ok Val.wrapV)) _ = _ from
                          semBindOk Val.wrapV _,
                        evalExprListCons, evalExprSim C fuel ε f f' he.1.1 htf,
                        evalExprListSim C fuel ε args args' he.1.2 hta,
                        evalKeywordsSim C fuel ε kws kws' he.2 htk]
                      cases hf : evalExpr C.P fuel ε f with
                      | none => rfl
                      | some rf =>
                          cases rf with
                          | error e => rfl
                          | ok vf =>
                              rw [show Sem.bind (some (Except.ok vf)) _ = _ from
                                  semBindOk vf _,
                                show Sem.bind (some (Except.ok vf)) _ = _ from
                                  semBindOk vf _]
                              cases ha : evalExprList C.P fuel ε args with
                              | none => rfl
                              | some ra =>
                                  cases ra with
                                  | error e => rfl
                                  | ok vargs =>
                                      rw [show Sem.bind (some (Except.ok vargs)) _ = _ from
                                          semBindOk vargs _,
                                        show Sem.bind (some (Except.ok vargs)) _ = _ from
                                          semBindOk vargs _,
                                        show Sem.bind (Sem.ok (vf :: vargs)) _ = _ from
                                          semBindOk (vf :: vargs) _]
                                      cases hk : evalKeywords C.P fuel ε kws with
                                      | none => rfl
                                      | some rk =>
                                          cases rk with
                                          | error e => rfl
                                          | ok vkws =>
                                              rw [show Sem.bind (some (Except.ok vkws)) _ = _
                                                  from semBindOk vkws _,
                                                show Sem.bind (some (Except.ok vkws)) _ = _
                                                  from semBindOk vkws _,
                                                applyValWrap]
                                              refine applyValSim C fuel vf vargs vkws ?_
                                              rw [evalKeywordsKeys C.P fuel ε kws vkws hk]
                                              exact wrapFreeKeywordsKeys kws he.2
                  | true =>
                      rw [hrefl] at htre
                      simp only [Bool.not_true, Bool.false_eq_true, if_false,
                        Except.ok.injEq] at htre
                      subst htre
                      rw [evalExprCall, evalExprCall, evalExprSim C fuel ε f f' he.1.1 htf,
                        evalExprListSim C fuel ε args args' he.1.2 hta,
                        evalKeywordsSim C fuel ε kws kws' he.2 htk]
                      cases hf : evalExpr C.P fuel ε f with
                      | none => rfl
                      | some rf =>
                          cases rf with
                          | error e => rfl
                          | ok vf =>
                              rw [show Sem.bind (some (Except.ok vf)) _ = _ from
                                  semBindOk vf _,
                                show Sem.bind (some (Except.ok vf)) _ = _ from
                                  semBindOk vf _]
                              cases ha : evalExprList C.P fuel ε args with
                              | none => rfl
                              | some ra =>
                                  cases ra with
                                  | error e => rfl
                                  | ok vargs =>
                                      rw [show Sem.bind (some (Except.ok vargs)) _ = _ from
                                          semBindOk vargs _,
                                        show Sem.bind (some (Except.ok vargs)) _ = _ from
                                          semBindOk vargs _]
                                      cases hk : evalKeywords C.P fuel ε kws with
                                      | none => rfl
                                      | some rk =>
                                          cases rk with
                                          | error e => rfl
                                          | ok vkws =>
                                              rw [show Sem.bind (some (Except.ok vkws)) _ = _
                                                  from semBindOk vkws _,
                                                show Sem.bind (some (Except.ok vkws)) _ = _
                                                  from semBindOk vkws _]
                                              refine applyValSim C fuel vf vargs vkws ?_
                                              rw [evalKeywordsKeys C.P fuel ε kws vkws hk]
                                              exact wrapFreeKeywordsKeys kws he.2
termination_by e te _ _ => (fuel, 1, sizeOf e)

theorem evalExprListSim (C : SimCtx) (fuel : Nat) (ε : Env) :
    ∀ (es tes : PExprList), wrapFreeExprList es = true →
      transformExprList plainCfg es = .ok tes →
      evalExprList C.rewritten fuel (addWrap ε) tes = evalExprList C.P fuel ε es
  | .nil, tes, _, htre => by
      simp only [transformExprList, Except.ok.injEq] at htre
      subst htre
      rw [evalExprListNil, evalExprListNil]
  | .cons e rest, tes, he, htre => by
      simp only [wrapFreeExprList, Bool.and_eq_true] at he
      simp only [transformExprList] at htre
      cases hte : transformExpr plainCfg e with
      | error err => rw [hte] at htre; cases htre
      | ok e' =>
          rw [hte, exBindOk] at htre
          cases htr2 : transformExprList plainCfg rest with
          | error err => rw [htr2] at htre; cases htre
          | ok rest' =>
              rw [htr2, exBindOk] at htre
              cases htre
              rw [evalExprListCons, evalExprListCons, evalExprSim C fuel ε e e' he.1 hte,
                evalExprListSim C fuel ε rest rest' he.2 htr2]
termination_by es _ _ _ => (fuel, 1, sizeOf es)

theorem evalKeywordsSim (C : SimCtx) (fuel : Nat) (ε : Env) :
    ∀ (ks tks : PKeywords), wrapFreeKeywords ks = true →
      transformKeywords plainCfg ks = .ok tks →
      evalKeywords C.rewritten fuel (addWrap ε) tks = evalKeywords C.P fuel ε ks
  | .nil, tks, _, htre => by
      simp only [transformKeywords, Except.ok.injEq] at htre
      subst htre
      rw [evalKeywordsNil, evalKeywordsNil]
  | .cons k v rest, tks, he, htre => by
      simp only [wrapFreeKeywords, Bool.and_eq_true] at he
      simp only [transformKeywords] at htre
      cases htv : transformExpr plainCfg v with
      | error err => rw [htv] at htre; cases htre
      | ok v' =>
          rw [htv, exBindOk] at htre
          cases htr2 : transformKeywords plainCfg rest with
          | error err => rw [htr2] at htre; cases htre
          | ok rest' =>
              rw [htr2, exBindOk] at htre
              cases htre
              rw [evalKeywordsCons, evalKeywordsCons, evalExprSim C fuel ε v v' he.1.2 htv,
                evalKeywordsSim C fuel ε rest rest' he.2 htr2]
termination_by ks _ _ _ => (fuel, 1, sizeOf ks)

theorem execStmtSim (C : SimCtx) (fuel : Nat) (ε : Env) :
    ∀ (s ts : PStmt) (a a' : Int), wrapFreeStmt s = true →
      transformStmt plainCfg a s = .ok (ts, a') →
      execStmt C.rewritten fuel (addWrap ε) ts = semMapCtl (execStmt C.P fuel ε s)
  | .exprStmt e l, ts, a, a', hs, htrs => by
      simp only [wrapFreeStmt] at hs
      simp only [transformStmt] at htrs
      cases hte : transformExpr plainCfg e with
      | error err => rw [hte, exBindErr] at htrs; cases htrs
      | ok e' =>
          rw [hte, exBindOk] at htrs
          cases htrs
          rw [execStmtExpr, execStmtExpr, evalExprSim C fuel ε e e' hs hte]
          cases hv : evalExpr C.P fuel ε e with
          | none => rfl
          | some rv => cases rv <;> rfl
  | .assign x e l, ts, a, a', hs, htrs => by
      simp only [wrapFreeStmt, Bool.and_eq_true, decide_eq_true_eq] at hs
      simp only [transformStmt] at htrs
      cases hte : transformExpr plainCfg e with
      | error err => rw [hte, exBindErr] at htrs; cases htrs
      | ok e' =>
          rw [hte, exBindOk] at htrs
          cases htrs
          rw [execStmtAssign, execStmtAssign, evalExprSim C fuel ε e e' hs.2 hte]
          cases hv : evalExpr C.P fuel ε e with
          | none => rfl
          | some rv =>
              cases rv with
              | error err => rfl
              | ok v =>
                  rw [show Sem.bind (some (Except.ok v)) _ = _ from semBindOk v _,
                    show Sem.bind (some (Except.ok v)) _ = _ from semBindOk v _]
                  rw [show (addWrap ε).update x v = addWrap (ε.update x v) from
                    (addWrapUpdate ε x v hs.1).symm]
                  rfl
  | .ret e l, ts, a, a', hs, htrs => by
      simp only [wrapFreeStmt] at hs
      simp only [transformStmt] at htrs
      cases hte : transformExpr plainCfg e with
      | error err => rw [hte, exBindErr] at htrs; cases htrs
      | ok e' =>
          rw [hte, exBindOk] at htrs
          cases htrs
          rw [execStmtRet, execStmtRet, evalExprSim C fuel ε e e' hs hte]
          cases hv : evalExpr C.P fuel ε e with
          | none => rfl
          | some rv => cases rv <;> rfl
  | .ifStmt c body orelse l, ts, a, a', hs, htrs => by
      simp only [wrapFreeStmt, Bool.and_eq_true] at hs
      simp only [transformStmt] at htrs
      cases htc : transformExpr plainCfg c with
      | error err => rw [htc, exBindErr] at htrs; cases htrs
      | ok c' =>
          rw [htc, exBindOk] at htrs
          cases htb : transformStmtList plainCfg a body with
          | error err => rw [htb, exBindErr] at htrs; cases htrs
          | ok pb =>
              rw [htb, exBindOk] at htrs
              obtain ⟨body', a1⟩ := pb
              cases hto : transformStmtList plainCfg a1 orelse with
              | error err => rw [hto, exBindErr] at htrs; cases htrs
              | ok po =>
                  rw [hto, exBindOk] at htrs
                  obtain ⟨orelse', a2⟩ := po
                  cases htrs
                  rw [execStmtIf, execStmtIf, evalExprSim C fuel ε c c' hs.1.1 htc]
                  cases hv : evalExpr C.P fuel ε c with
                  | none => rfl
                  | some rv =>
                      cases rv with
                      | error err => rfl
                      | ok v =>
                          rw [show Sem.bind (some (Except.ok v)) _ = _ from semBindOk v _,
                            show Sem.bind (some (Except.ok v)) _ = _ from semBindOk v _]
                          cases truthy v with
                          | true =>
                              simp only [if_true]
                              exact execStmtListSim C fuel ε body body' a a1 hs.1.2 htb
                          | false =>
                              simp only [Bool.false_eq_true, if_false]
                              exact execStmtListSim C fuel ε orelse orelse' a1 a2 hs.2 hto
  | .whileStmt c body l, ts, a, a', hs, htrs => by
      simp only [wrapFreeStmt, Bool.and_eq_true] at hs
      have htrs' := htrs
      simp only [transformStmt] at htrs
      cases htc : transformExpr plainCfg c with
      | error err => rw [htc, exBindErr] at htrs; cases htrs
      | ok c' =>
          rw [htc, exBindOk] at htrs
          cases htb : transformStmtList plainCfg a body with
          | error err => rw [htb, exBindErr] at htrs; cases htrs
          | ok pb =>
              rw [htb, exBindOk] at htrs
              obtain ⟨body', a1⟩ := pb
              cases htrs
              rw [execStmtWhile, execStmtWhile, evalExprSim C fuel ε c c' hs.1 htc]
              cases hv : evalExpr C.P fuel ε c with
              | none => rfl
              | some rv =>
                  cases rv with
                  | error err => rfl
                  | ok v =>
                      rw [show Sem.bind (some (Except.ok v)) _ = _ from semBindOk v _,
                        show Sem.bind (some (Except.ok v)) _ = _ from semBindOk v _]
                      cases truthy v with
                      | false => simp only [Bool.false_eq_true, if_false]; rfl
                      | true =>
                          simp only [if_true]
                          rw [execStmtListSim C fuel ε body body' a a1 hs.2 htb]
                          cases hB : execStmtList C.P fuel ε body with
                          | none => rfl
                          | some rb =>
                              cases rb with
                              | error err => rfl
                              | ok ctl =>
                                  cases ctl with
                                  | ret rv => rfl
                                  | next ε2 =>
                                      rw [show semMapCtl (some (Except.ok (Ctl.next ε2))) =
                                          some (Except.ok (Ctl.next (addWrap ε2))) from rfl]
                                      rw [show Sem.bind (some (Except.ok (Ctl.next (addWrap ε2))))
                                          _ = _ from semBindOk (Ctl.next (addWrap ε2)) _,
                                        show Sem.bind (some (Except.ok (Ctl.next ε2))) _ = _
                                          from semBindOk (Ctl.next ε2) _]
                                      cases fuel with
                                      | zero => rfl
                                      | succ n =>
                                          exact execStmtSim C n ε2 (.whileStmt c body l)
                                            (.whileStmt c' body' l) a a1
                                            (by simp [wrapFreeStmt, hs.1, hs.2]) htrs'
  | .functionDef fn ps ks kd decos body l, ts, a, a', hs, htrs => by
      simp only [transformStmt] at htrs
      rw [show plainCfg.decName = none from rfl] at htrs
      dsimp only at htrs
      rw [exBindOk] at htrs
      cases htd : transformExprList plainCfg
          (kd.append (.cons (.name plainCfg.wrapName l) .nil)) with
          | error err => rw [htd, exBindErr] at htrs; cases htrs
          | ok kd' =>
              rw [htd, exBindOk] at htrs
              cases htb : transformStmtList plainCfg a body with
              | error err => rw [htb, exBindErr] at htrs; cases htrs
              | ok pb =>
                  rw [htb, exBindOk] at htrs
                  obtain ⟨body', a1⟩ := pb
                  cases htdc : transformExprList plainCfg decos with
                  | error err => rw [htdc, exBindErr] at htrs; cases htrs
                  | ok decos' =>
                      rw [htdc, exBindOk] at htrs
                      cases htrs
                      rw [execStmtDef, execStmtDef]
                      rfl
termination_by s _ _ _ _ _ => (fuel, 1, sizeOf s)

theorem execStmtListSim (C : SimCtx) (fuel : Nat) (ε : Env) :
    ∀ (ss tss : PStmtList) (a a' : Int), wrapFreeStmtList ss = true →
      transformStmtList plainCfg a ss = .ok (tss, a') →
      execStmtList C.rewritten fuel (addWrap ε) tss =
        semMapCtl (execStmtList C.P fuel ε ss)
  | .nil, tss, a, a', _, htrs => by
      simp only [transformStmtList, Except.ok.injEq, Prod.mk.injEq] at htrs
      rw [← htrs.1]
      rw [execStmtListNil, execStmtListNil]
      rfl
  | .cons s rest, tss, a, a', hs, htrs => by
      simp only [wrapFreeStmtList, Bool.and_eq_true] at hs
      simp only [transformStmtList] at htrs
      cases hts : transformStmt plainCfg a s with
      | error err => rw [hts, exBindErr] at htrs; cases htrs
      | ok ps =>
          rw [hts, exBindOk] at htrs
          obtain ⟨s', a1⟩ := ps
          cases htr2 : transformStmtList plainCfg a1 rest with
          | error err => rw [htr2, exBindErr] at htrs; cases htrs
          | ok pr =>
              rw [htr2, exBindOk] at htrs
              obtain ⟨rest', a2⟩ := pr
              cases htrs
              rw [execStmtListCons, execStmtListCons,
                execStmtSim C fuel ε s s' a a1 hs.1 hts]
              cases hS : execStmt C.P fuel ε s with
              | none => rfl
              | some rs =>
                  cases rs with
                  | error err => rfl
                  | ok ctl =>
                      cases ctl with
                      | ret rv => rfl
                      | next ε2 =>
                          rw [show semMapCtl (some (Except.ok (Ctl.next ε2))) =
                              some (Except.ok (Ctl.next (addWrap ε2))) from rfl]
                          rw [show Sem.bind (some (Except.ok (Ctl.next (addWrap ε2)))) _ = _
                              from semBindOk (Ctl.next (addWrap ε2)) _,
                            show Sem.bind (some (Except.ok (Ctl.next ε2))) _ = _
                              from semBindOk (Ctl.next ε2) _]
                          exact execStmtListSim C fuel ε2 rest rest' a1 a2 hs.2 htr2
termination_by ss _ _ _ _ _ => (fuel, 1, sizeOf ss)

end

/-! ## Structural inverse of the call wrapping (for the exactly-once claim)

`unwrapExpr` undoes `visit_Call`: a call whose callee is the injected
wrapper name is folded back into a direct call of its first argument.
`unwrap ∘ transform = id` on wrap-free code shows each eligible call is
wrapped exactly once, with its callee, positional arguments and keyword
arguments carried over in order and otherwise unchanged. -/

mutual

/-- Fold wrapper call sites back into direct calls. -/
def unwrapExpr : PExpr → PExpr
  | .constant c l => .constant c l
  | .name x l => .name x l
  | .attribute v a l => .attribute (unwrapExpr v) a l
  | .subscript v s l => .subscript (unwrapExpr v) (unwrapExpr s) l
  | .call (.name w lw) (.cons f' rest) kws l =>
      if w = WRAP_NAME then
        .call (unwrapExpr f') (unwrapExprList rest) (unwrapKeywords kws) l
      else
        .call (.name w lw) (.cons (unwrapExpr f') (unwrapExprList rest)) (unwrapKeywords kws) l
  | .call f args kws l =>
      .call (unwrapExpr f) (unwrapExprList args) (unwrapKeywords kws) l
termination_by structural e => e

/-- `unwrapExpr` on expression lists. -/
def unwrapExprList : PExprList → PExprList
  | .nil => .nil
  | .cons e rest => .cons (unwrapExpr e) (unwrapExprList rest)
termination_by structural es => es

/-- `unwrapExpr` on keywords. -/
def unwrapKeywords : PKeywords → PKeywords
  | .nil => .nil
  | .cons k v rest => .cons k (unwrapExpr v) (unwrapKeywords rest)
termination_by structural ks => ks

end

/-- `transformExpr` sends a `Name` only to itself (used to invert the
callee position of an untransformed call). -/
theorem transformExprNameInv (cfg : TConfig) (w : String) (lw : Int) :
    ∀ (f : PExpr), transformExpr cfg f = .ok (.name w lw) → f = .name w lw
  | .constant c l, h => by simp only [transformExpr, Except.ok.injEq] at h; cases h
  | .name x l, h => by simp only [transformExpr, Except.ok.injEq] at h; rw [h]
  | .attribute v a l, h => by
      simp only [transformExpr] at h
      cases hv : transformExpr cfg v with
      | error e => rw [hv, exBindErr] at h; cases h
      | ok v' => rw [hv, exBindOk] at h; cases h
  | .subscript v s l, h => by
      simp only [transformExpr] at h
      cases hv : transformExpr cfg v with
      | error e => rw [hv, exBindErr] at h; cases h
      | ok v' =>
          rw [hv, exBindOk] at h
          cases hs : transformExpr cfg s with
          | error e => rw [hs, exBindErr] at h; cases h
          | ok s' => rw [hs, exBindOk] at h; cases h
  | .call f0 args kws l, h => by
      simp only [transformExpr] at h
      cases hal : allowWrapCall cfg.blacklist cfg.whitelist (.call f0 args kws l) with
      | error e => rw [hal, exBindErr] at h; cases h
      | ok allow =>
          rw [hal, exBindOk] at h
          cases hf : transformExpr cfg f0 with
          | error e => rw [hf, exBindErr] at h; cases h
          | ok f1 =>
              rw [hf, exBindOk] at h
              cases ha : transformExprList cfg args with
              | error e => rw [ha, exBindErr] at h; cases h
              | ok args1 =>
                  rw [ha, exBindOk] at h
                  cases hk : transformKeywords cfg kws with
                  | error e => rw [hk, exBindErr] at h; cases h
                  | ok kws1 =>
                      rw [hk, exBindOk] at h
                      cases allow with
                      | true => simp only [if_true] at h; cases h
                      | false => simp only [Bool.false_eq_true, if_false] at h; cases h

/-- Only a bare-`Name` callee can trip the `globals`/`locals` guard. -/
theorem namespaceReflectionShape :
    ∀ (f : PExpr) (args : PExprList) (kws : PKeywords) (l : Int),
      calleeIsNamespaceReflection (.call f args kws l) = true →
      ∃ g lg, f = .name g lg
  | .name g lg, _, _, _, _ => ⟨g, lg, rfl⟩
  | .constant _ _, _, _, _, h => by simp [calleeIsNamespaceReflection] at h
  | .attribute _ _ _, _, _, _, h => by simp [calleeIsNamespaceReflection] at h
  | .subscript _ _ _, _, _, _, h => by simp [calleeIsNamespaceReflection] at h
  | .call _ _ _ _, _, _, _, h => by simp [calleeIsNamespaceReflection] at h

mutual

/-- The round trip: transforming wrap-free code and unwrapping restores the
original expression — every eligible call was wrapped exactly once, in
place, preserving the callee, argument order, keywords and location. -/
theorem unwrapTransformExpr :
    ∀ (e te : PExpr), wrapFreeExpr e = true → transformExpr plainCfg e = .ok te →
      unwrapExpr te = e
  | .constant c l, te, _, htre => by
      simp only [transformExpr, Except.ok.injEq] at htre
      subst htre
      rfl
  | .name x l, te, _, htre => by
      simp only [transformExpr, Except.ok.injEq] at htre
      subst htre
      rfl
  | .attribute v a l, te, he, htre => by
      simp only [wrapFreeExpr] at he
      simp only [transformExpr] at htre
      cases htv : transformExpr plainCfg v with
      | error e => rw [htv, exBindErr] at htre; cases htre
      | ok v' =>
          rw [htv, exBindOk] at htre
          cases htre
          simp only [unwrapExpr]
          rw [unwrapTransformExpr v v' he htv]
  | .subscript v s l, te, he, htre => by
      simp only [wrapFreeExpr, Bool.and_eq_true] at he
      simp only [transformExpr] at htre
      cases htv : transformExpr plainCfg v with
      | error e => rw [htv, exBindErr] at htre; cases htre
      | ok v' =>
          rw [htv, exBindOk] at htre
          cases hts : transformExpr plainCfg s with
          | error e => rw [hts, exBindErr] at htre; cases htre
          | ok s' =>
              rw [hts, exBindOk] at htre
              cases htre
              simp only [unwrapExpr]
              rw [unwrapTransformExpr v v' he.1 htv, unwrapTransformExpr s s' he.2 hts]
  | .call f args kws l, te, he, htre => by
      simp only [wrapFreeExpr, Bool.and_eq_true] at he
      simp only [transformExpr] at htre
      rw [allowWrapCallPlain (.call f args kws l), exBindOk] at htre
      cases htf : transformExpr plainCfg f with
      | error e => rw [htf, exBindErr] at htre; cases htre
      | ok f' =>
          rw [htf, exBindOk] at htre
          cases hta : transformExprList plainCfg args with
          | error e => rw [hta, exBindErr] at htre; cases htre
          | ok args' =>
              rw [hta, exBindOk] at htre
              cases htk : transformKeywords plainCfg kws with
              | error e => rw [htk, exBindErr] at htre; cases htre
              | ok kws' =>
                  rw [htk, exBindOk] at htre
                  cases hrefl : calleeIsNamespaceReflection (.call f args kws l) with
                  | false =>
                      rw [hrefl] at htre
                      simp only [Bool.not_false, if_true, Except.ok.injEq] at htre
                      subst htre
                      rw [show plainCfg.wrapName = WRAP_NAME from rfl]
                      simp only [unwrapExpr, if_pos rfl]
                      rw [unwrapTransformExpr f f' he.1.1 htf,
                        unwrapTransformExprList args args' he.1.2 hta,
                        unwrapTransformKeywords kws kws' he.2 htk]
                      simp
                  | true =>
                      rw [hrefl] at htre
                      simp only [Bool.not_true, Bool.false_eq_true, if_false,
                        Except.ok.injEq] at htre
                      subst htre
                      -- the callee here is a bare name (`globals`/`locals`),
                      -- so its transform is itself
                      obtain ⟨g, lg, rfl⟩ := namespaceReflectionShape f args kws l hrefl
                      simp only [wrapFreeExpr, decide_eq_true_eq] at he
                      have hfg : (PExpr.name g lg) = f' := by
                        simp only [transformExpr, Except.ok.injEq] at htf
                        rw [← htf]
                      cases hfg
                      cases args' with
                      | nil =>
                          simp only [unwrapExpr]
                          rw [unwrapTransformExprList args .nil he.1.2 hta,
                            unwrapTransformKeywords kws kws' he.2 htk]
                      | cons a1 arest =>
                          have hg : g ≠ WRAP_NAME := he.1.1
                          simp only [unwrapExpr, if_neg hg]
                          have h2 := unwrapTransformExprList args (.cons a1 arest) he.1.2 hta
                          simp only [unwrapExprList] at h2
                          rw [h2, unwrapTransformKeywords kws kws' he.2 htk]
termination_by e _ _ _ => sizeOf e

theorem unwrapTransformExprList :
    ∀ (es tes : PExprList), wrapFreeExprList es = true →
      transformExprList plainCfg es = .ok tes → unwrapExprList tes = es
  | .nil, tes, _, htre => by
      simp only [transformExprList, Except.ok.injEq] at htre
      subst htre
      rfl
  | .cons e rest, tes, he, htre => by
      simp only [wrapFreeExprList, Bool.and_eq_true] at he
      simp only [transformExprList] at htre
      cases hte : transformExpr plainCfg e with
      | error err => rw [hte, exBindErr] at htre; cases htre
      | ok e' =>
          rw [hte, exBindOk] at htre
          cases htr2 : transformExprList plainCfg rest with
          | error err => rw [htr2, exBindErr] at htre; cases htre
          | ok rest' =>
              rw [htr2, exBindOk] at htre
              cases htre
              simp only [unwrapExprList]
              rw [unwrapTransformExpr e e' he.1 hte,
                unwrapTransformExprList rest rest' he.2 htr2]
termination_by es _ _ _ => sizeOf es

theorem unwrapTransformKeywords :
    ∀ (ks tks : PKeywords), wrapFreeKeywords ks = true →
      transformKeywords plainCfg ks = .ok tks → unwrapKeywords tks = ks
  | .nil, tks, _, htre => by
      simp only [transformKeywords, Except.ok.injEq] at htre
      subst htre
      rfl
  | .cons k v rest, tks, he, htre => by
      simp only [wrapFreeKeywords, Bool.and_eq_true] at he
      simp only [transformKeywords] at htre
      cases htv : transformExpr plainCfg v with
      | error err => rw [htv, exBindErr] at htre; cases htre
      | ok v' =>
          rw [htv, exBindOk] at htre
          cases htr2 : transformKeywords plainCfg rest with
          | error err => rw [htr2, exBindErr] at htre; cases htre
          | ok rest' =>
              rw [htr2, exBindOk] at htre
              cases htre
              simp only [unwrapKeywords]
              rw [unwrapTransformExpr v v' he.1.2 htv,
                unwrapTransformKeywords rest rest' he.2 htr2]
termination_by ks _ _ _ => sizeOf ks

end

/-! ## Line-number lemmas

Three facts drive the traceback claim: `ast.increment_lineno` shifts every
statement line uniformly; the transformer never changes a statement's
line; and with no nested definitions the only `adjust_lineno` change is
the single `-1` of the decorator removal. -/

mutual

theorem stmtLinesIncrement :
    ∀ (n : Int) (s : PStmt), stmtLines (incrementStmt n s) = (stmtLines s).map (· + n)
  | n, .exprStmt e l => by simp [incrementStmt, stmtLines]
  | n, .assign t e l => by simp [incrementStmt, stmtLines]
  | n, .ret e l => by simp [incrementStmt, stmtLines]
  | n, .ifStmt c body orelse l => by
      simp [incrementStmt, stmtLines, stmtListLinesIncrement n body,
        stmtListLinesIncrement n orelse]
  | n, .whileStmt c body l => by
      simp [incrementStmt, stmtLines, stmtListLinesIncrement n body]
  | n, .functionDef fn ps ks kd decos body l => by
      simp [incrementStmt, stmtLines, stmtListLinesIncrement n body]
termination_by _ s => sizeOf s

theorem stmtListLinesIncrement :
    ∀ (n : Int) (ss : PStmtList),
      stmtListLines (incrementStmtList n ss) = (stmtListLines ss).map (· + n)
  | n, .nil => by simp [incrementStmtList, stmtListLines]
  | n, .cons s rest => by
      simp [incrementStmtList, stmtListLines, stmtLinesIncrement n s,
        stmtListLinesIncrement n rest]
termination_by _ ss => sizeOf ss

end

mutual

/-- The transformer keeps every statement's line number: rewritten calls
take the original call's location (`ast.copy_location`), and no statement
node is added or removed. -/
theorem transformStmtLines :
    ∀ (cfg : TConfig) (a : Int) (s : PStmt) (s' : PStmt) (a' : Int),
      transformStmt cfg a s = .ok (s', a') → stmtLines s' = stmtLines s
  | cfg, a, .exprStmt e l, s', a', h => by
      simp only [transformStmt] at h
      cases hte : transformExpr cfg e with
      | error err => rw [hte, exBindErr] at h; cases h
      | ok e' => rw [hte, exBindOk] at h; cases h; rfl
  | cfg, a, .assign t e l, s', a', h => by
      simp only [transformStmt] at h
      cases hte : transformExpr cfg e with
      | error err => rw [hte, exBindErr] at h; cases h
      | ok e' => rw [hte, exBindOk] at h; cases h; rfl
  | cfg, a, .ret e l, s', a', h => by
      simp only [transformStmt] at h
      cases hte : transformExpr cfg e with
      | error err => rw [hte, exBindErr] at h; cases h
      | ok e' => rw [hte, exBindOk] at h; cases h; rfl
  | cfg, a, .ifStmt c body orelse l, s', a', h => by
      simp only [transformStmt] at h
      cases htc : transformExpr cfg c with
      | error err => rw [htc, exBindErr] at h; cases h
      | ok c' =>
          rw [htc, exBindOk] at h
          cases htb : transformStmtList cfg a body with
          | error err => rw [htb, exBindErr] at h; cases h
          | ok pb =>
              rw [htb, exBindOk] at h
              obtain ⟨body', a1⟩ := pb
              cases hto : transformStmtList cfg a1 orelse with
              | error err => rw [hto, exBindErr] at h; cases h
              | ok po =>
                  rw [hto, exBindOk] at h
                  obtain ⟨orelse', a2⟩ := po
                  cases h
                  simp only [stmtLines]
                  rw [transformStmtListLines cfg a body body' a1 htb,
                    transformStmtListLines cfg a1 orelse orelse' a2 hto]
  | cfg, a, .whileStmt c body l, s', a', h => by
      simp only [transformStmt] at h
      cases htc : transformExpr cfg c with
      | error err => rw [htc, exBindErr] at h; cases h
      | ok c' =>
          rw [htc, exBindOk] at h
          cases htb : transformStmtList cfg a body with
          | error err => rw [htb, exBindErr] at h; cases h
          | ok pb =>
              rw [htb, exBindOk] at h
              obtain ⟨body', a1⟩ := pb
              cases h
              simp only [stmtLines]
              rw [transformStmtListLines cfg a body body' a1 htb]
  | cfg, a, .functionDef fn ps ks kd decos body l, s', a', h => by
      simp only [transformStmt] at h
      cases hdn : cfg.decName with
      | none =>
          rw [hdn] at h
          dsimp only at h
          rw [exBindOk] at h
          cases htd : transformExprList cfg (kd.append (.cons (.name cfg.wrapName l) .nil)) with
          | error err => rw [htd, exBindErr] at h; cases h
          | ok kd' =>
              rw [htd, exBindOk] at h
              cases htb : transformStmtList cfg (decos, a).2 body with
              | error err => rw [htb, exBindErr] at h; cases h
              | ok pb =>
                  rw [htb, exBindOk] at h
                  obtain ⟨body', a1⟩ := pb
                  cases htdc : transformExprList cfg (decos, a).1 with
                  | error err => rw [htdc, exBindErr] at h; cases h
                  | ok decos' =>
                      rw [htdc, exBindOk] at h
                      cases h
                      simp only [stmtLines]
                      rw [transformStmtListLines cfg (decos, a).2 body body' a1 htb]
      | some d =>
          rw [hdn] at h
          dsimp only at h
          cases hrd : removeDecorators d decos with
          | error err => rw [hrd, exBindErr] at h; cases h
          | ok kept =>
              rw [hrd, exBindOk] at h
              by_cases hlen : kept.length = decos.length
              · rw [if_pos hlen, exBindErr] at h
                cases h
              · rw [if_neg hlen, exBindOk] at h
                cases htd : transformExprList cfg
                    (kd.append (.cons (.name cfg.wrapName l) .nil)) with
                | error err => rw [htd, exBindErr] at h; cases h
                | ok kd' =>
                    rw [htd, exBindOk] at h
                    cases htb : transformStmtList cfg (kept, a - 1).2 body with
                    | error err => rw [htb, exBindErr] at h; cases h
                    | ok pb =>
                        rw [htb, exBindOk] at h
                        obtain ⟨body', a1⟩ := pb
                        cases htdc : transformExprList cfg (kept, a - 1).1 with
                        | error err => rw [htdc, exBindErr] at h; cases h
                        | ok decos' =>
                            rw [htdc, exBindOk] at h
                            cases h
                            simp only [stmtLines]
                            rw [transformStmtListLines cfg (kept, a - 1).2 body body' a1 htb]
termination_by _ _ s _ _ _ => sizeOf s

theorem transformStmtListLines :
    ∀ (cfg : TConfig) (a : Int) (ss : PStmtList) (ss' : PStmtList) (a' : Int),
      transformStmtList cfg a ss = .ok (ss', a') → stmtListLines ss' = stmtListLines ss
  | cfg, a, .nil, ss', a', h => by
      simp only [transformStmtList, Except.ok.injEq, Prod.mk.injEq] at h
      rw [← h.1]
  | cfg, a, .cons s rest, ss', a', h => by
      simp only [transformStmtList] at h
      cases hts : transformStmt cfg a s with
      | error err => rw [hts, exBindErr] at h; cases h
      | ok ps =>
          rw [hts, exBindOk] at h
          obtain ⟨s', a1⟩ := ps
          cases htr : transformStmtList cfg a1 rest with
          | error err => rw [htr, exBindErr] at h; cases h
          | ok pr =>
              rw [htr, exBindOk] at h
              obtain ⟨rest', a2⟩ := pr
              cases h
              simp only [stmtListLines]
              rw [transformStmtLines cfg a s s' a1 hts,
                transformStmtListLines cfg a1 rest rest' a2 htr]
termination_by _ _ ss _ _ _ => sizeOf ss

end

mutual

/-- With no nested definitions in sight, the statement traversal leaves
`adjust_lineno` untouched. -/
theorem transformStmtAdj :
    ∀ (cfg : TConfig) (a : Int) (s : PStmt) (s' : PStmt) (a' : Int),
      noNestedDef s = true → transformStmt cfg a s = .ok (s', a') → a' = a
  | cfg, a, .exprStmt e l, s', a', _, h => by
      simp only [transformStmt] at h
      cases hte : transformExpr cfg e with
      | error err => rw [hte, exBindErr] at h; cases h
      | ok e' => rw [hte, exBindOk] at h; cases h; rfl
  | cfg, a, .assign t e l, s', a', _, h => by
      simp only [transformStmt] at h
      cases hte : transformExpr cfg e with
      | error err => rw [hte, exBindErr] at h; cases h
      | ok e' => rw [hte, exBindOk] at h; cases h; rfl
  | cfg, a, .ret e l, s', a', _, h => by
      simp only [transformStmt] at h
      cases hte : transformExpr cfg e with
      | error err => rw [hte, exBindErr] at h; cases h
      | ok e' => rw [hte, exBindOk] at h; cases h; rfl
  | cfg, a, .ifStmt c body orelse l, s', a', hn, h => by
      simp only [noNestedDef, Bool.and_eq_true] at hn
      simp only [transformStmt] at h
      cases htc : transformExpr cfg c with
      | error err => rw [htc, exBindErr] at h; cases h
      | ok c' =>
          rw [htc, exBindOk] at h
          cases htb : transformStmtList cfg a body with
          | error err => rw [htb, exBindErr] at h; cases h
          | ok pb =>
              rw [htb, exBindOk] at h
              obtain ⟨body', a1⟩ := pb
              cases hto : transformStmtList cfg a1 orelse with
              | error err => rw [hto, exBindErr] at h; cases h
              | ok po =>
                  rw [hto, exBindOk] at h
                  obtain ⟨orelse', a2⟩ := po
                  cases h
                  rw [transformStmtListAdj cfg a1 orelse orelse' a2 hn.2 hto,
                    transformStmtListAdj cfg a body body' a1 hn.1 htb]
  | cfg, a, .whileStmt c body l, s', a', hn, h => by
      simp only [noNestedDef] at hn
      simp only [transformStmt] at h
      cases htc : transformExpr cfg c with
      | error err => rw [htc, exBindErr] at h; cases h
      | ok c' =>
          rw [htc, exBindOk] at h
          cases htb : transformStmtList cfg a body with
          | error err => rw [htb, exBindErr] at h; cases h
          | ok pb =>
              rw [htb, exBindOk] at h
              obtain ⟨body', a1⟩ := pb
              cases h
              exact transformStmtListAdj cfg a body body' a1 hn htb
  | cfg, a, .functionDef fn ps ks kd decos body l, s', a', hn, h => by
      simp only [noNestedDef] at hn
      cases hn
termination_by _ _ s _ _ _ _ => sizeOf s

theorem transformStmtListAdj :
    ∀ (cfg : TConfig) (a : Int) (ss : PStmtList) (ss' : PStmtList) (a' : Int),
      noNestedDefList ss = true → transformStmtList cfg a ss = .ok (ss', a') → a' = a
  | cfg, a, .nil, ss', a', _, h => by
      simp only [transformStmtList, Except.ok.injEq, Prod.mk.injEq] at h
      rw [← h.2]
  | cfg, a, .cons s rest, ss', a', hn, h => by
      simp only [noNestedDefList, Bool.and_eq_true] at hn
      simp only [transformStmtList] at h
      cases hts : transformStmt cfg a s with
      | error err => rw [hts, exBindErr] at h; cases h
      | ok ps =>
          rw [hts, exBindOk] at h
          obtain ⟨s', a1⟩ := ps
          cases htr : transformStmtList cfg a1 rest with
          | error err => rw [htr, exBindErr] at h; cases h
          | ok pr =>
              rw [htr, exBindOk] at h
              obtain ⟨rest', a2⟩ := pr
              cases h
              rw [transformStmtListAdj cfg a1 rest rest' a2 hn.2 htr,
                transformStmtAdj cfg a s s' a1 hn.1 hts]
termination_by _ _ ss _ _ _ _ => sizeOf ss

end

/-! ## Decorator-removal lemmas (for the error-surface claims)

`_is_deco_target` accepts exactly two decorator shapes — a bare `Name` or
a `Call` whose callee is a `Name` — and raises `TypeError` otherwise.  The
predicates below classify decorator lists: `decoSupportedE` (shape is
accepted), `decoNoMatchE d` (shape accepted and name differs from `d`). -/

/-- Decorator shapes `_is_deco_target` understands. -/
def decoSupportedE : PExpr → Bool
  | .name _ _ => true
  | .call (.name _ _) _ _ _ => true
  | _ => false

/-- All decorators in the list have supported shapes. -/
def decoListSupported : PExprList → Bool
  | .nil => true
  | .cons e rest => decoSupportedE e && decoListSupported rest

/-- A supported decorator that does not name `d`. -/
def decoNoMatchE (d : String) : PExpr → Bool
  | .name x _ => decide (x ≠ d)
  | .call (.name x _) _ _ _ => decide (x ≠ d)
  | _ => false

/-- No decorator in the list matches `d` (and all are supported shapes). -/
def noDecoMatch (d : String) : PExprList → Bool
  | .nil => true
  | .cons e rest => decoNoMatchE d e && noDecoMatch d rest

theorem isDecoTargetOfNoMatch (d : String) :
    ∀ (e : PExpr), decoNoMatchE d e = true → isDecoTarget d e = .ok false
  | .name x _, h => by
      simp only [decoNoMatchE, decide_eq_true_eq] at h
      simp [isDecoTarget, h]
  | .call (.name x _) _ _ _, h => by
      simp only [decoNoMatchE, decide_eq_true_eq] at h
      simp [isDecoTarget, h]
  | .constant _ _, h => by simp [decoNoMatchE] at h
  | .attribute _ _ _, h => by simp [decoNoMatchE] at h
  | .subscript _ _ _, h => by simp [decoNoMatchE] at h
  | .call (.constant _ _) _ _ _, h => by simp [decoNoMatchE] at h
  | .call (.attribute _ _ _) _ _ _, h => by simp [decoNoMatchE] at h
  | .call (.subscript _ _ _) _ _ _, h => by simp [decoNoMatchE] at h
  | .call (.call _ _ _ _) _ _ _, h => by simp [decoNoMatchE] at h

/-- When no decorator matches, the removal comprehension keeps the whole
list — which is precisely the "not found" condition. -/
theorem removeDecoratorsNoMatch (d : String) :
    ∀ (ds : PExprList), noDecoMatch d ds = true → removeDecorators d ds = .ok ds
  | .nil, _ => rfl
  | .cons e rest, h => by
      simp only [noDecoMatch, Bool.and_eq_true] at h
      simp only [removeDecorators]
      rw [isDecoTargetOfNoMatch d e h.1, exBindOk,
        removeDecoratorsNoMatch d rest h.2, exBindOk]
      simp

theorem removeDecoratorsSupported (d : String) :
    ∀ (ds : PExprList), decoListSupported ds = true →
      ∃ kept, removeDecorators d ds = .ok kept
  | .nil, _ => ⟨.nil, rfl⟩
  | .cons e rest, h => by
      simp only [decoListSupported, Bool.and_eq_true] at h
      obtain ⟨kept, hk⟩ := removeDecoratorsSupported d rest h.2
      have ht : ∃ b, isDecoTarget d e = .ok b := by
        cases e with
        | name x lx => exact ⟨decide (x = d), by simp [isDecoTarget]⟩
        | call f args kws lc =>
            cases f with
            | name x lx => exact ⟨decide (x = d), by simp [isDecoTarget]⟩
            | constant _ _ => simp [decoSupportedE] at h
            | _ => simp [decoSupportedE] at h
        | _ => simp [decoSupportedE] at h
      obtain ⟨b, hb⟩ := ht
      refine ⟨if b then kept else .cons e kept, ?_⟩
      simp only [removeDecorators]
      rw [hb, exBindOk, hk, exBindOk]
      cases b <;> simp

mutual

/-- With both filter sets empty the expression traversal cannot raise:
eligibility is decided before any name is built. -/
theorem transformExprTotal (cfg : TConfig) (hb : cfg.blacklist = [])
    (hw : cfg.whitelist = []) :
    ∀ (e : PExpr), ∃ e', transformExpr cfg e = .ok e'
  | .constant c l => ⟨.constant c l, by simp [transformExpr]⟩
  | .name x l => ⟨.name x l, by simp [transformExpr]⟩
  | .attribute v a l => by
      obtain ⟨v', hv⟩ := transformExprTotal cfg hb hw v
      exact ⟨.attribute v' a l, by simp only [transformExpr]; rw [hv, exBindOk]⟩
  | .subscript v s l => by
      obtain ⟨v', hv⟩ := transformExprTotal cfg hb hw v
      obtain ⟨s', hs⟩ := transformExprTotal cfg hb hw s
      exact ⟨.subscript v' s' l, by
        simp only [transformExpr]
        rw [hv, exBindOk, hs, exBindOk]⟩
  | .call f args kws l => by
      obtain ⟨f', hf⟩ := transformExprTotal cfg hb hw f
      obtain ⟨args', ha⟩ := transformExprListTotal cfg hb hw args
      obtain ⟨kws', hk⟩ := transformKeywordsTotal cfg hb hw kws
      refine ⟨if calleeIsNamespaceReflection (.call f args kws l) then
          .call f' args' kws' l
        else .call (.name cfg.wrapName l) (.cons f' args') kws' l, ?_⟩
      simp only [transformExpr]
      rw [hb, hw, allowWrapCallNil, exBindOk, hf, exBindOk, ha, exBindOk, hk, exBindOk]
      cases hr : calleeIsNamespaceReflection (.call f args kws l) <;> simp [hr]
termination_by e => sizeOf e

theorem transformExprListTotal (cfg : TConfig) (hb : cfg.blacklist = [])
    (hw : cfg.whitelist = []) :
    ∀ (es : PExprList), ∃ es', transformExprList cfg es = .ok es'
  | .nil => ⟨.nil, rfl⟩
  | .cons e rest => by
      obtain ⟨e', he⟩ := transformExprTotal cfg hb hw e
      obtain ⟨rest', hr⟩ := transformExprListTotal cfg hb hw rest
      exact ⟨.cons e' rest', by
        simp only [transformExprList]
        rw [he, exBindOk, hr, exBindOk]⟩
termination_by es => sizeOf es

theorem transformKeywordsTotal (cfg : TConfig) (hb : cfg.blacklist = [])
    (hw : cfg.whitelist = []) :
    ∀ (ks : PKeywords), ∃ ks', transformKeywords cfg ks = .ok ks'
  | .nil => ⟨.nil, rfl⟩
  | .cons k v rest => by
      obtain ⟨v', hv⟩ := transformExprTotal cfg hb hw v
      obtain ⟨rest', hr⟩ := transformKeywordsTotal cfg hb hw rest
      exact ⟨.cons k v' rest', by
        simp only [transformKeywords]
        rw [hv, exBindOk, hr, exBindOk]⟩
termination_by ks => sizeOf ks

end

mutual

/-- Every decorator list in the tree has supported shapes. -/
def supportedDecosStmt : PStmt → Bool
  | .exprStmt _ _ => true
  | .assign _ _ _ => true
  | .ret _ _ => true
  | .ifStmt _ body orelse _ => supportedDecosStmts body && supportedDecosStmts orelse
  | .whileStmt _ body _ => supportedDecosStmts body
  | .functionDef _ _ _ _ decos body _ => decoListSupported decos && supportedDecosStmts body
termination_by structural s => s

/-- `supportedDecosStmt` over a list. -/
def supportedDecosStmts : PStmtList → Bool
  | .nil => true
  | .cons s rest => supportedDecosStmt s && supportedDecosStmts rest
termination_by structural ss => ss

end

/-- Some direct member of the body is a function definition none of whose
(supported) decorators matches `d`. -/
def hasBareDef (d : String) : PStmtList → Bool
  | .nil => false
  | .cons (.functionDef _ _ _ _ decos _ _) rest =>
      noDecoMatch d decos || hasBareDef d rest
  | .cons _ rest => hasBareDef d rest

/-- A definition whose decorators miss `d` makes the removal raise
`ValueError` immediately: the filtered list keeps its length. -/
theorem transformDefNoMatchErr (cfg : TConfig) (d : String) (hd : cfg.decName = some d)
    (fn : String) (ps ks : List String) (kd decos : PExprList) (body : PStmtList)
    (l a : Int) (hnm : noDecoMatch d decos = true) :
    transformStmt cfg a (.functionDef fn ps ks kd decos body l) =
      .error (.valueErr (decoNotFoundMsg d)) := by
  simp only [transformStmt]
  rw [hd]
  dsimp only
  rw [removeDecoratorsNoMatch d decos hnm, exBindOk, if_pos rfl, exBindErr]

mutual

/-- With empty filters and supported decorator shapes, the only error the
statement traversal can raise is the decorator-not-found `ValueError`. -/
theorem transformStmtErrShape (cfg : TConfig) (d : String) (hb : cfg.blacklist = [])
    (hw : cfg.whitelist = []) (hd : cfg.decName = some d) :
    ∀ (a : Int) (s : PStmt) (err : TErr), supportedDecosStmt s = true →
      transformStmt cfg a s = .error err → err = .valueErr (decoNotFoundMsg d)
  | a, .exprStmt e l, err, _, h => by
      obtain ⟨e', he⟩ := transformExprTotal cfg hb hw e
      simp only [transformStmt] at h
      rw [he, exBindOk] at h
      cases h
  | a, .assign t e l, err, _, h => by
      obtain ⟨e', he⟩ := transformExprTotal cfg hb hw e
      simp only [transformStmt] at h
      rw [he, exBindOk] at h
      cases h
  | a, .ret e l, err, _, h => by
      obtain ⟨e', he⟩ := transformExprTotal cfg hb hw e
      simp only [transformStmt] at h
      rw [he, exBindOk] at h
      cases h
  | a, .ifStmt c body orelse l, err, hs, h => by
      simp only [supportedDecosStmt, Bool.and_eq_true] at hs
      obtain ⟨c', hc⟩ := transformExprTotal cfg hb hw c
      simp only [transformStmt] at h
      rw [hc, exBindOk] at h
      cases htb : transformStmtList cfg a body with
      | error err2 =>
          rw [htb, exBindErr] at h
          cases h
          exact transformStmtListErrShape cfg d hb hw hd a body err hs.1 htb
      | ok pb =>
          rw [htb, exBindOk] at h
          obtain ⟨body', a1⟩ := pb
          cases hto : transformStmtList cfg a1 orelse with
          | error err2 =>
              rw [hto, exBindErr] at h
              cases h
              exact transformStmtListErrShape cfg d hb hw hd a1 orelse err hs.2 hto
          | ok po =>
              rw [hto, exBindOk] at h
              cases h
  | a, .whileStmt c body l, err, hs, h => by
      simp only [supportedDecosStmt] at hs
      obtain ⟨c', hc⟩ := transformExprTotal cfg hb hw c
      simp only [transformStmt] at h
      rw [hc, exBindOk] at h
      cases htb : transformStmtList cfg a body with
      | error err2 =>
          rw [htb, exBindErr] at h
          cases h
          exact transformStmtListErrShape cfg d hb hw hd a body err hs htb
      | ok pb =>
          rw [htb, exBindOk] at h
          obtain ⟨body', a1⟩ := pb
          cases h
  | a, .functionDef fn ps ks kd decos body l, err, hs, h => by
      simp only [supportedDecosStmt, Bool.and_eq_true] at hs
      simp only [transformStmt] at h
      rw [hd] at h
      dsimp only at h
      obtain ⟨kept, hk⟩ := removeDecoratorsSupported d decos hs.1
      rw [hk, exBindOk] at h
      by_cases hlen : kept.length = decos.length
      · rw [if_pos hlen, exBindErr] at h
        cases h
        rfl
      · rw [if_neg hlen, exBindOk] at h
        obtain ⟨kd', hkd⟩ := transformExprListTotal cfg hb hw
          (kd.append (.cons (.name cfg.wrapName l) .nil))
        rw [hkd, exBindOk] at h
        cases htb : transformStmtList cfg (kept, a - 1).2 body with
        | error err2 =>
            rw [htb, exBindErr] at h
            cases h
            exact transformStmtListErrShape cfg d hb hw hd (a - 1) body err hs.2 htb
        | ok pb =>
            rw [htb, exBindOk] at h
            obtain ⟨body', a1⟩ := pb
            obtain ⟨decos', hdc⟩ := transformExprListTotal cfg hb hw (kept, a - 1).1
            rw [hdc, exBindOk] at h
            cases h
termination_by _ s _ _ _ => sizeOf s

theorem transformStmtListErrShape (cfg : TConfig) (d : String) (hb : cfg.blacklist = [])
    (hw : cfg.whitelist = []) (hd : cfg.decName = some d) :
    ∀ (a : Int) (ss : PStmtList) (err : TErr), supportedDecosStmts ss = true →
      transformStmtList cfg a ss = .error err → err = .valueErr (decoNotFoundMsg d)
  | a, .nil, err, _, h => by
      simp only [transformStmtList] at h
      cases h
  | a, .cons s rest, err, hs, h => by
      simp only [supportedDecosStmts, Bool.and_eq_true] at hs
      simp only [transformStmtList] at h
      cases hts : transformStmt cfg a s with
      | error err2 =>
          rw [hts, exBindErr] at h
          cases h
          exact transformStmtErrShape cfg d hb hw hd a s err hs.1 hts
      | ok ps =>
          rw [hts, exBindOk] at h
          obtain ⟨s', a1⟩ := ps
          cases htr : transformStmtList cfg a1 rest with
          | error err2 =>
              rw [htr, exBindErr] at h
              cases h
              exact transformStmtListErrShape cfg d hb hw hd a1 rest err hs.2 htr
          | ok pr =>
              rw [htr, exBindOk] at h
              cases h
termination_by _ ss _ _ _ => sizeOf ss

end

/-- A body containing a bare nested definition makes the traversal raise
the decorator-not-found `ValueError`. -/
theorem transformStmtListBareErr (cfg : TConfig) (d : String) (hb : cfg.blacklist = [])
    (hw : cfg.whitelist = []) (hd : cfg.decName = some d) :
    ∀ (a : Int) (ss : PStmtList), supportedDecosStmts ss = true →
      hasBareDef d ss = true →
      transformStmtList cfg a ss = .error (.valueErr (decoNotFoundMsg d))
  | a, .nil, _, hbare => by simp [hasBareDef] at hbare
  | a, .cons s rest, hs, hbare => by
      simp only [supportedDecosStmts, Bool.and_eq_true] at hs
      simp only [transformStmtList]
      cases hts : transformStmt cfg a s with
      | error err =>
          rw [exBindErr]
          rw [transformStmtErrShape cfg d hb hw hd a s err hs.1 hts]
      | ok ps =>
          rw [exBindOk]
          obtain ⟨s', a1⟩ := ps
          have hbrest : hasBareDef d rest = true := by
            cases s with
            | functionDef fn ps2 ks kd decos body l =>
                simp only [hasBareDef, Bool.or_eq_true] at hbare
                cases hbare with
                | inl hnm =>
                    exact absurd hts (by
                      rw [transformDefNoMatchErr cfg d hd fn ps2 ks kd decos body l a hnm]
                      simp)
                | inr hr => exact hr
            | exprStmt e l => exact hbare
            | assign t e l => exact hbare
            | ret e l => exact hbare
            | ifStmt c b o l => exact hbare
            | whileStmt c b l => exact hbare
          rw [transformStmtListBareErr cfg d hb hw hd a1 rest hs.2 hbrest, exBindErr]
termination_by _ ss _ _ => sizeOf ss

/-- The heart of the nested-definition hazard: a target whose body
directly contains a function definition carrying no decorator named `d`
makes the whole rewrite fail with the decorator-not-found `ValueError`,
whatever the outer definition's own decorators look like. -/
theorem transformNestedDefErr (cfg : TConfig) (d : String) (hb : cfg.blacklist = [])
    (hw : cfg.whitelist = []) (hd : cfg.decName = some d)
    (fn : String) (ps ks : List String) (kd decos : PExprList) (body : PStmtList)
    (l a : Int) (hsup : supportedDecosStmt (.functionDef fn ps ks kd decos body l) = true)
    (hbare : hasBareDef d body = true) :
    transformStmt cfg a (.functionDef fn ps ks kd decos body l) =
      .error (.valueErr (decoNotFoundMsg d)) := by
  simp only [supportedDecosStmt, Bool.and_eq_true] at hsup
  simp only [transformStmt]
  rw [hd]
  dsimp only
  obtain ⟨kept, hk⟩ := removeDecoratorsSupported d decos hsup.1
  rw [hk, exBindOk]
  by_cases hlen : kept.length = decos.length
  · rw [if_pos hlen, exBindErr]
  · rw [if_neg hlen, exBindOk]
    obtain ⟨kd', hkd⟩ := transformExprListTotal cfg hb hw
      (kd.append (.cons (.name cfg.wrapName l) .nil))
    rw [hkd, exBindOk,
      transformStmtListBareErr cfg d hb hw hd (kept, a - 1).2 body hsup.2 hbare,
      exBindErr]

/-! ## The filter decision, characterized (spec side of claim C5)

`specEligible` is the claim's wording: not `globals`/`locals`; then either
no filter set is non-empty, or with a non-empty blacklist no alternative
(the exact identity or any wildcard expansion) is blacklisted, or with a
non-empty whitelist some alternative is whitelisted. -/

/-- The exact identity followed by its wildcard expansions. -/
def wildcardAlternatives (nm : String) : List String := nm :: wildcardNames nm

/-- The claim's declarative routing condition. -/
def specEligible (bl wl : List String) (node : PExpr) (nm : String) : Prop :=
  calleeIsNamespaceReflection node = false ∧
    ((bl = [] ∧ wl = []) ∨
      (bl ≠ [] ∧ ∀ x ∈ wildcardAlternatives nm, x ∉ bl) ∨
      (wl ≠ [] ∧ ∃ x ∈ wildcardAlternatives nm, x ∈ wl))

theorem findSomeBlack (bl : List String) (hbl : bl ≠ []) :
    ∀ ws : List String, ws.findSome? (allowName bl []) =
      if ∃ w ∈ ws, w ∈ bl then some false else none := by
  intro ws
  induction ws with
  | nil => simp [List.findSome?]
  | cons w rest ih =>
      by_cases hw : w ∈ bl
      · have : allowName bl [] w = some false := by simp [allowName, hbl, hw]
        simp only [List.findSome?_cons, this]
        rw [if_pos ⟨w, by simp, hw⟩]
      · have : allowName bl [] w = none := by simp [allowName, hw]
        simp only [List.findSome?_cons, this, ih]
        by_cases hex : ∃ x ∈ rest, x ∈ bl
        · rw [if_pos hex, if_pos (by obtain ⟨x, hx1, hx2⟩ := hex; exact ⟨x, by simp [hx1], hx2⟩)]
        · rw [if_neg hex, if_neg (by
            rintro ⟨x, hx1, hx2⟩
            simp only [List.mem_cons] at hx1
            rcases hx1 with rfl | hx1
            · exact hw hx2
            · exact hex ⟨x, hx1, hx2⟩)]

theorem findSomeWhite (wl : List String) (hwl : wl ≠ []) :
    ∀ ws : List String, ws.findSome? (allowName [] wl) =
      if ∃ w ∈ ws, w ∈ wl then some true else none := by
  intro ws
  induction ws with
  | nil => simp [List.findSome?]
  | cons w rest ih =>
      by_cases hw : w ∈ wl
      · have : allowName [] wl w = some true := by simp [allowName, hwl, hw]
        simp only [List.findSome?_cons, this]
        rw [if_pos ⟨w, by simp, hw⟩]
      · have : allowName [] wl w = none := by simp [allowName, hw]
        simp only [List.findSome?_cons, this, ih]
        by_cases hex : ∃ x ∈ rest, x ∈ wl
        · rw [if_pos hex, if_pos (by obtain ⟨x, hx1, hx2⟩ := hex; exact ⟨x, by simp [hx1], hx2⟩)]
        · rw [if_neg hex, if_neg (by
            rintro ⟨x, hx1, hx2⟩
            simp only [List.mem_cons] at hx1
            rcases hx1 with rfl | hx1
            · exact hw hx2
            · exact hex ⟨x, hx1, hx2⟩)]

/-- `_allow_wrap_call` decides exactly the claim's condition (under the
constructor invariant that at most one filter set is non-empty), and it
cannot raise once the callee's identity resolves. -/
theorem allowWrapCallSpec (bl wl : List String) (hx : bl = [] ∨ wl = [])
    (f : PExpr) (args : PExprList) (kws : PKeywords) (l : Int) (nm : String)
    (hn : buildName f = .ok nm) :
    (∃ b, allowWrapCall bl wl (.call f args kws l) = .ok b) ∧
    (allowWrapCall bl wl (.call f args kws l) = .ok true ↔
      specEligible bl wl (.call f args kws l) nm) := by
  unfold allowWrapCall
  cases hrefl : calleeIsNamespaceReflection (.call f args kws l) with
  | true =>
      simp only [hrefl, if_true]
      refine ⟨⟨false, rfl⟩, ?_⟩
      constructor
      · intro h
        exact absurd (Except.ok.inj h) (by decide)
      · rintro ⟨h1, _⟩
        rw [hrefl] at h1
        cases h1
  | false =>
      simp only [hrefl, Bool.false_eq_true, if_false]
      by_cases hbw : bl = [] ∧ wl = []
      · rw [if_pos hbw]
        refine ⟨⟨true, rfl⟩, ?_⟩
        constructor
        · intro _
          exact ⟨hrefl, Or.inl hbw⟩
        · intro _
          rfl
      · rw [if_neg hbw]
        rw [hn, exBindOk]
        rcases hx with hbl | hwl
        · -- blacklist empty, so the whitelist is the live filter
          subst hbl
          have hwl : wl ≠ [] := fun h => hbw ⟨rfl, h⟩
          have han : allowName [] wl nm =
              if nm ∈ wl then some true else none := by
            simp [allowName, hwl]
          rw [han]
          by_cases hnm : nm ∈ wl
          · rw [if_pos hnm]
            refine ⟨⟨true, rfl⟩, ?_⟩
            constructor
            · intro _
              exact ⟨hrefl, Or.inr (Or.inr ⟨hwl, nm, by simp [wildcardAlternatives], hnm⟩)⟩
            · intro _
              rfl
          · rw [if_neg hnm, findSomeWhite wl hwl]
            by_cases hex : ∃ w ∈ wildcardNames nm, w ∈ wl
            · rw [if_pos hex]
              refine ⟨⟨true, rfl⟩, ?_⟩
              constructor
              · intro _
                obtain ⟨w, hw1, hw2⟩ := hex
                exact ⟨hrefl, Or.inr (Or.inr ⟨hwl, w, by simp [wildcardAlternatives, hw1], hw2⟩)⟩
              · intro _
                rfl
            · rw [if_neg hex]
              refine ⟨⟨decide ¬([] = ([] : List String)), rfl⟩, ?_⟩
              constructor
              · intro h
                have := Except.ok.inj h
                simp at this
              · rintro ⟨_, horl⟩
                rcases horl with ⟨_, hc⟩ | ⟨hc, _⟩ | ⟨_, x, hx1, hx2⟩
                · exact absurd hc hwl
                · exact absurd rfl hc
                · simp only [wildcardAlternatives, List.mem_cons] at hx1
                  rcases hx1 with rfl | hx1
                  · exact absurd hx2 hnm
                  · exact absurd ⟨x, hx1, hx2⟩ hex
        · -- whitelist empty, so the blacklist is the live filter
          subst hwl
          have hbl : bl ≠ [] := fun h => hbw ⟨h, rfl⟩
          have han : allowName bl [] nm =
              if nm ∈ bl then some false else none := by
            simp [allowName, hbl]
          rw [han]
          by_cases hnm : nm ∈ bl
          · rw [if_pos hnm]
            refine ⟨⟨false, rfl⟩, ?_⟩
            constructor
            · intro h
              exact absurd (Except.ok.inj h) (by decide)
            · rintro ⟨_, horl⟩
              rcases horl with ⟨hc, _⟩ | ⟨_, hall⟩ | ⟨hc, _⟩
              · exact absurd hc hbl
              · exact absurd hnm (hall nm (by simp [wildcardAlternatives]))
              · exact absurd rfl hc
          · rw [if_neg hnm, findSomeBlack bl hbl]
            by_cases hex : ∃ w ∈ wildcardNames nm, w ∈ bl
            · rw [if_pos hex]
              refine ⟨⟨false, rfl⟩, ?_⟩
              constructor
              · intro h
                exact absurd (Except.ok.inj h) (by decide)
              · rintro ⟨_, horl⟩
                obtain ⟨w, hw1, hw2⟩ := hex
                rcases horl with ⟨hc, _⟩ | ⟨_, hall⟩ | ⟨hc, _⟩
                · exact absurd hc hbl
                · exact absurd hw2 (hall w (by simp [wildcardAlternatives, hw1]))
                · exact absurd rfl hc
            · rw [if_neg hex]
              refine ⟨⟨decide ¬(bl = []), rfl⟩, ?_⟩
              constructor
              · intro _
                refine ⟨hrefl, Or.inr (Or.inl ⟨hbl, ?_⟩)⟩
                intro x hx
                simp only [wildcardAlternatives, List.mem_cons] at hx
                rcases hx with rfl | hx
                · exact hnm
                · intro hmem
                  exact hex ⟨x, hx, hmem⟩
              · intro _
                simp [hbl]

/-! ## Invariance of the syntactic predicates under re-numbering

`ast.increment_lineno` only touches line numbers, so nesting structure and
decorator shapes survive it. -/

mutual

theorem noNestedDefIncrement :
    ∀ (n : Int) (s : PStmt), noNestedDef (incrementStmt n s) = noNestedDef s
  | n, .exprStmt e l => rfl
  | n, .assign t e l => rfl
  | n, .ret e l => rfl
  | n, .ifStmt c body orelse l => by
      simp only [incrementStmt, noNestedDef, noNestedDefListIncrement n body,
        noNestedDefListIncrement n orelse]
  | n, .whileStmt c body l => by
      simp only [incrementStmt, noNestedDef, noNestedDefListIncrement n body]
  | n, .functionDef fn ps ks kd decos body l => rfl
termination_by _ s => sizeOf s

theorem noNestedDefListIncrement :
    ∀ (n : Int) (ss : PStmtList), noNestedDefList (incrementStmtList n ss) = noNestedDefList ss
  | n, .nil => rfl
  | n, .cons s rest => by
      simp only [incrementStmtList, noNestedDefList, noNestedDefIncrement n s,
        noNestedDefListIncrement n rest]
termination_by _ ss => sizeOf ss

end

theorem decoNoMatchEIncrement (d : String) (n : Int) :
    ∀ (e : PExpr), decoNoMatchE d (incrementExpr n e) = decoNoMatchE d e
  | .name _ _ => rfl
  | .constant _ _ => rfl
  | .attribute _ _ _ => rfl
  | .subscript _ _ _ => rfl
  | .call (.name _ _) _ _ _ => rfl
  | .call (.constant _ _) _ _ _ => rfl
  | .call (.attribute _ _ _) _ _ _ => rfl
  | .call (.subscript _ _ _) _ _ _ => rfl
  | .call (.call _ _ _ _) _ _ _ => rfl

theorem noDecoMatchIncrement (d : String) (n : Int) :
    ∀ (ds : PExprList), noDecoMatch d (incrementExprList n ds) = noDecoMatch d ds
  | .nil => rfl
  | .cons e rest => by
      simp only [incrementExprList, noDecoMatch, decoNoMatchEIncrement d n e,
        noDecoMatchIncrement d n rest]

theorem decoSupportedEIncrement (n : Int) :
    ∀ (e : PExpr), decoSupportedE (incrementExpr n e) = decoSupportedE e
  | .name _ _ => rfl
  | .constant _ _ => rfl
  | .attribute _ _ _ => rfl
  | .subscript _ _ _ => rfl
  | .call (.name _ _) _ _ _ => rfl
  | .call (.constant _ _) _ _ _ => rfl
  | .call (.attribute _ _ _) _ _ _ => rfl
  | .call (.subscript _ _ _) _ _ _ => rfl
  | .call (.call _ _ _ _) _ _ _ => rfl

theorem decoListSupportedIncrement (n : Int) :
    ∀ (ds : PExprList), decoListSupported (incrementExprList n ds) = decoListSupported ds
  | .nil => rfl
  | .cons e rest => by
      simp only [incrementExprList, decoListSupported, decoSupportedEIncrement n e,
        decoListSupportedIncrement n rest]

mutual

theorem supportedDecosStmtIncrement :
    ∀ (n : Int) (s : PStmt), supportedDecosStmt (incrementStmt n s) = supportedDecosStmt s
  | n, .exprStmt e l => rfl
  | n, .assign t e l => rfl
  | n, .ret e l => rfl
  | n, .ifStmt c body orelse l => by
      simp only [incrementStmt, supportedDecosStmt, supportedDecosStmtsIncrement n body,
        supportedDecosStmtsIncrement n orelse]
  | n, .whileStmt c body l => by
      simp only [incrementStmt, supportedDecosStmt, supportedDecosStmtsIncrement n body]
  | n, .functionDef fn ps ks kd decos body l => by
      simp only [incrementStmt, supportedDecosStmt, decoListSupportedIncrement n decos,
        supportedDecosStmtsIncrement n body]
termination_by _ s => sizeOf s

theorem supportedDecosStmtsIncrement :
    ∀ (n : Int) (ss : PStmtList),
      supportedDecosStmts (incrementStmtList n ss) = supportedDecosStmts ss
  | n, .nil => rfl
  | n, .cons s rest => by
      simp only [incrementStmtList, supportedDecosStmts, supportedDecosStmtIncrement n s,
        supportedDecosStmtsIncrement n rest]
termination_by _ ss => sizeOf ss

end

theorem hasBareDefIncrement (d : String) (n : Int) :
    ∀ (ss : PStmtList), hasBareDef d (incrementStmtList n ss) = hasBareDef d ss
  | .nil => rfl
  | .cons (.functionDef fn ps ks kd decos body l) rest => by
      simp only [incrementStmtList, incrementStmt, hasBareDef,
        noDecoMatchIncrement d n decos, hasBareDefIncrement d n rest]
  | .cons (.exprStmt e l) rest => by
      simp only [incrementStmtList, incrementStmt, hasBareDef, hasBareDefIncrement d n rest]
  | .cons (.assign t e l) rest => by
      simp only [incrementStmtList, incrementStmt, hasBareDef, hasBareDefIncrement d n rest]
  | .cons (.ret e l) rest => by
      simp only [incrementStmtList, incrementStmt, hasBareDef, hasBareDefIncrement d n rest]
  | .cons (.ifStmt c b o l) rest => by
      simp only [incrementStmtList, incrementStmt, hasBareDef, hasBareDefIncrement d n rest]
  | .cons (.whileStmt c b l) rest => by
      simp only [incrementStmtList, incrementStmt, hasBareDef, hasBareDefIncrement d n rest]

/-- The names of the callable builtins are the names bound to callables. -/
theorem callableBuiltinsMem (tf : PyFunc) (x : String) :
    x ∈ callableBuiltins tf ↔ (x, true) ∈ tf.builtins := by
  simp only [callableBuiltins, List.mem_map, List.mem_filter]
  constructor
  · rintro ⟨⟨a, b⟩, ⟨h1, h2⟩, rfl⟩
    simp only at h2
    rw [show b = true from h2] at h1
    exact h1
  · intro h
    exact ⟨(x, true), ⟨h, rfl⟩, rfl⟩

/-- Projections of a successful decoration. -/
theorem rewriteResultSets (tf : PyFunc) (dn : Option String) (iB : Bool)
    (bl wl : Option (List String)) (r : RewriteResult)
    (h : rewriteWrapCallsFunc tf dn iB bl wl = .ok r) :
    r.callerBlacklist = callerBlacklistAfter tf iB bl ∧ r.callerWhitelist = wl ∧
      r.fullBlacklist = mergedBlacklist tf iB bl := by
  unfold rewriteWrapCallsFunc at h
  by_cases h1 : mergedBlacklist tf iB bl ≠ [] ∧ wl.getD [] ≠ []
  · rw [if_pos h1] at h; cases h
  · rw [if_neg h1] at h
    by_cases h2 : tf.closureVars ≠ []
    · rw [if_pos h2] at h; cases h
    · rw [if_neg h2] at h
      by_cases h3 : ¬ tf.isFunc = true
      · rw [if_pos h3] at h; cases h
      · rw [if_neg h3] at h
        cases hsrc : tf.src with
        | none => rw [hsrc] at h; cases h
        | some si =>
            rw [hsrc] at h
            dsimp only at h
            cases hts : transformStmt
                ⟨WRAP_NAME, dn, mergedBlacklist tf iB bl, wl.getD []⟩ 0
                (incrementStmt (1 - si.firstlineno) si.tree) with
            | error err => rw [hts, exBindErr] at h; cases h
            | ok step =>
                rw [hts, exBindOk] at h
                split at h
                · cases h
                  exact ⟨rfl, rfl, rfl⟩
                · cases h

/-! ## Line-number preservation through the whole pipeline (claim C2) -/

/-- Under a removal directive, a successfully transformed definition whose
body holds no nested definition has decremented `adjust_lineno` by exactly
one. -/
theorem transformDefAdjStrip (cfg : TConfig) (d : String) (hd : cfg.decName = some d)
    (fn : String) (ps ks : List String) (kd decos : PExprList) (body : PStmtList)
    (l a : Int) (s' : PStmt) (a' : Int) (hnn : noNestedDefList body = true)
    (h : transformStmt cfg a (.functionDef fn ps ks kd decos body l) = .ok (s', a')) :
    a' = a - 1 := by
  simp only [transformStmt] at h
  rw [hd] at h
  dsimp only at h
  cases hrm : removeDecorators d decos with
  | error e => rw [hrm, exBindErr] at h; cases h
  | ok kept =>
      rw [hrm, exBindOk] at h
      by_cases hlen : kept.length = decos.length
      · rw [if_pos hlen, exBindErr] at h; cases h
      · rw [if_neg hlen, exBindOk] at h
        dsimp only at h
        cases hkd : transformExprList cfg
            (kd.append (.cons (.name cfg.wrapName l) .nil)) with
        | error e => rw [hkd, exBindErr] at h; cases h
        | ok kd' =>
            rw [hkd, exBindOk] at h
            cases hb : transformStmtList cfg (a - 1) body with
            | error e => rw [hb, exBindErr] at h; cases h
            | ok pb =>
                rw [hb, exBindOk] at h
                obtain ⟨body', a2⟩ := pb
                cases hdc : transformExprList cfg kept with
                | error e => rw [hdc, exBindErr] at h; cases h
                | ok decos' =>
                    rw [hdc, exBindOk] at h
                    cases h
                    exact transformStmtListAdj cfg (a - 1) body body' a2 hnn hb

/-- C2 (amended): the engine re-numbers correctly exactly in the decorated
case.  When a decorator name is supplied and the stripped definition's body
holds no nested definition, every statement of the final tree carries its
original absolute line number: parsing shifts by `1 - firstlineno`, the
strip records `adjust_lineno = -1`, and `increment_lineno` shifts back by
`firstlineno + adjust_lineno`, which compose to the identity. -/
theorem finalTreeLinesPreserved (tf : PyFunc) (d : String) (iB : Bool)
    (bl wl : Option (List String)) (r : RewriteResult) (si : ParsedSource)
    (fn : String) (ps ks : List String) (kd decos : PExprList) (body : PStmtList)
    (l : Int) (hsrc : tf.src = some si)
    (htree : si.tree = .functionDef fn ps ks kd decos body l)
    (hnn : noNestedDefList body = true)
    (h : rewriteWrapCallsFunc tf (some d) iB bl wl = .ok r) :
    stmtLines r.finalTree = stmtLines si.tree := by
  unfold rewriteWrapCallsFunc at h
  by_cases h1 : mergedBlacklist tf iB bl ≠ [] ∧ wl.getD [] ≠ []
  · rw [if_pos h1] at h; cases h
  · rw [if_neg h1] at h
    by_cases h2 : tf.closureVars ≠ []
    · rw [if_pos h2] at h; cases h
    · rw [if_neg h2] at h
      by_cases h3 : ¬ tf.isFunc = true
      · rw [if_pos h3] at h; cases h
      · rw [if_neg h3] at h
        rw [hsrc] at h
        dsimp only at h
        cases hts : transformStmt
            ⟨WRAP_NAME, some d, mergedBlacklist tf iB bl, wl.getD []⟩ 0
            (incrementStmt (1 - si.firstlineno) si.tree) with
        | error err => rw [hts, exBindErr] at h; cases h
        | ok step =>
            rw [hts, exBindOk] at h
            obtain ⟨s1, a1⟩ := step
            dsimp only at h
            have ha1 : a1 = -1 := by
              rw [htree] at hts
              simp only [incrementStmt] at hts
              have := transformDefAdjStrip
                ⟨WRAP_NAME, some d, mergedBlacklist tf iB bl, wl.getD []⟩ d rfl
                fn ps ks _ _ _ _ 0 s1 a1
                (by rw [noNestedDefListIncrement]; exact hnn) hts
              omega
            have hsl : stmtLines s1 = (stmtLines si.tree).map (· + (1 - si.firstlineno)) := by
              rw [transformStmtLines _ 0 _ s1 a1 hts, stmtLinesIncrement]
            split at h
            · cases h
              show stmtLines (incrementStmt (si.firstlineno + a1) s1) = stmtLines si.tree
              rw [stmtLinesIncrement, hsl, List.map_map, ha1]
              have hid : ∀ x ∈ stmtLines si.tree,
                  ((· + (si.firstlineno + -1)) ∘ (· + (1 - si.firstlineno))) x = id x := by
                intro x _
                simp only [Function.comp, id]
                omega
              rw [List.map_congr_left hid, List.map_id]
            · cases h

/-- Witness source for C2: decorator on file line 4, `def` on 5, body on 6;
`co_firstlineno` of a decorated function is the decorator's line. -/
def bodyC2w : PStmtList :=
  .cons (.ret (.call (.name "inc" 6) (.cons (.name "n" 6) .nil) .nil 6) 6) .nil

def siC2w : ParsedSource :=
  ⟨4, .functionDef "g" ["n"] [] .nil (.cons (.name "wc" 4) .nil) bodyC2w 5⟩

def tfC2w : PyFunc := ⟨true, [], some siC2w, []⟩

/-- Result of decorating `tfC2w` while stripping `wc`. -/
def rC2w : RewriteResult :=
  ⟨.functionDef "g" ["n"] [WRAP_NAME] (.cons (.name WRAP_NAME 5) .nil) .nil
      (.cons (.ret (.call (.name WRAP_NAME 6)
        (.cons (.name "inc" 6) (.cons (.name "n" 6) .nil)) .nil 6) 6) .nil) 5,
    -1, [], none, none⟩

theorem finalTreeLinesPreserved_witness :
    tfC2w.src = some siC2w ∧ noNestedDefList bodyC2w = true ∧
      rewriteWrapCallsFunc tfC2w (some "wc") false none none = .ok rC2w ∧
      stmtLines rC2w.finalTree = stmtLines siC2w.tree :=
  ⟨rfl, by decide, rfl,
    finalTreeLinesPreserved tfC2w "wc" false none none rC2w siC2w "g" ["n"] []
      .nil (.cons (.name "wc" 4) .nil) bodyC2w 5 rfl rfl (by decide) rfl⟩

/-- Counterexample fixture for C2: no decorator, `firstlineno = 4`, `def`
on line 4, body on line 5. -/
def siC2c : ParsedSource :=
  ⟨4, .functionDef "g" [] [] .nil .nil
    (.cons (.ret (.constant (.intC 1) 5) 5) .nil) 4⟩

def tfC2c : PyFunc := ⟨true, [], some siC2c, []⟩

/-- C2 counterexample: with no decorator stripped (`decorator_name = None`,
so `adjust_lineno = 0`), the final tree's statements sit one line *below*
their original positions — `increment_lineno` adds `firstlineno + 0` to a
tree already numbered from 1, overshooting by one.  The claim's
"regardless of how many lines the rewrite inserted or removed" is false:
line numbers survive only in the one-stripped-decorator case. -/
theorem finalTreeLinesShifted_cex :
    (rewriteWrapCallsFunc tfC2c none false none none).map
        (fun r => stmtLines r.finalTree) = .ok [5, 6] ∧
      stmtLines siC2c.tree = [4, 5] ∧ ([5, 6] : List Int) ≠ [4, 5] :=
  ⟨rfl, rfl, by decide⟩

/-- C1: call transparency of the engine under the identity wrapper.  For a
target whose program is wrap-free (no use of the reserved name), with the
target's body transformed by the engine's own transformer and the wrapper
bound to the identity wrapper through the injected keyword-only parameter,
the rewritten function computes exactly what the original computes — same
value, same raised exception, same divergence — on every argument list and
keyword list (keywords not colliding with the reserved name). -/
theorem rewriteCallTransparent (P : Prog) (fname : String) (d : FuncDef)
    (tbody : PStmtList) (adjIn adjOut : Int)
    (wf : WrapFreeProg P) (hfn : P.funcs fname = some d)
    (htr : transformStmtList plainCfg adjIn d.body = .ok (tbody, adjOut))
    (fuel : Nat) (args : List Val) (kws : List (String × Val))
    (hkw : WRAP_NAME ∉ kws.map Prod.fst) :
    callFunction (rewriteProg P fname tbody) fuel fname args kws =
      callFunction P fuel fname args kws :=
  applyValSim ⟨P, fname, d, tbody, adjIn, adjOut, wf, hfn, htr⟩ fuel
    (.fnRef fname) args kws hkw

/-- Witness program for C1: `def f(n): return inc(n)` with builtin `inc`. -/
def fBodyW : PStmtList :=
  .cons (.ret (.call (.name "inc" 2) (.cons (.name "n" 2) .nil) .nil 2) 2) .nil

def fDefW : FuncDef := ⟨["n"], [], fBodyW⟩

def tbodyW : PStmtList :=
  .cons (.ret (.call (.name WRAP_NAME 2)
    (.cons (.name "inc" 2) (.cons (.name "n" 2) .nil)) .nil 2) 2) .nil

def progW : Prog :=
  ⟨fun g => if g = "f" then some fDefW else none,
   fun _ => none,
   fun b => if b = "inc" then
       some (fun args _ =>
         match args with
         | [.intV i] => .ok (.intV (i + 1))
         | _ => .error (.typeError "inc"))
     else none⟩

theorem rewriteCallTransparent_witness :
    WrapFreeProg progW ∧
      callFunction (rewriteProg progW "f" tbodyW) 3 "f" [.intV 41] [] =
        callFunction progW 3 "f" [.intV 41] [] := by
  have hwf : WrapFreeProg progW := by
    intro g dg hg
    have hg' : (if g = "f" then some fDefW else none) = some dg := hg
    by_cases hh : g = "f"
    · rw [if_pos hh] at hg'
      cases hg'
      exact ⟨by decide, by decide, by decide⟩
    · rw [if_neg hh] at hg'
      cases hg'
  exact ⟨hwf, rewriteCallTransparent progW "f" fDefW tbodyW 0 0 hwf rfl rfl 3
    [.intV 41] [] (by simp)⟩

/-- C3: for every eligible call node the transformer produces a call whose
callee is the injected wrapper name and whose arguments are the original
callee followed by the original positional arguments in order, keywords
passed through (values visited), carrying the original node's line — and
the traversal recursed into the replacement's children, so transforming
wrap-free code and erasing the wrapping layer restores the original
expression exactly (each eligible call wrapped exactly once).  This `src`
has no extras literal: the wrapper receives `(original_callable, *args,
**kwargs)`. -/
theorem visitCallWrapShape (cfg : TConfig) (f : PExpr) (args : PExprList)
    (kws : PKeywords) (l : Int) (f' : PExpr) (args' : PExprList) (kws' : PKeywords)
    (hallow : allowWrapCall cfg.blacklist cfg.whitelist (.call f args kws l) = .ok true)
    (hf : transformExpr cfg f = .ok f')
    (ha : transformExprList cfg args = .ok args')
    (hk : transformKeywords cfg kws = .ok kws') :
    transformExpr cfg (.call f args kws l) =
        .ok (.call (.name cfg.wrapName l) (.cons f' args') kws' l) ∧
      (∀ (e te : PExpr), wrapFreeExpr e = true →
        transformExpr plainCfg e = .ok te → unwrapExpr te = e) := by
  constructor
  · simp only [transformExpr]
    rw [hallow, exBindOk, hf, exBindOk, ha, exBindOk, hk, exBindOk]
    rfl
  · exact unwrapTransformExpr

theorem visitCallWrapShape_witness :
    allowWrapCall plainCfg.blacklist plainCfg.whitelist
        (.call (.name "g" 7) (.cons (.constant (.intC 2) 7) .nil)
          (.cons "k" (.name "y" 7) .nil) 7) = .ok true ∧
      transformExpr plainCfg
          (.call (.name "g" 7) (.cons (.constant (.intC 2) 7) .nil)
            (.cons "k" (.name "y" 7) .nil) 7) =
        .ok (.call (.name plainCfg.wrapName 7)
          (.cons (.name "g" 7) (.cons (.constant (.intC 2) 7) .nil))
          (.cons "k" (.name "y" 7) .nil) 7) :=
  ⟨rfl,
    (visitCallWrapShape plainCfg (.name "g" 7) (.cons (.constant (.intC 2) 7) .nil)
      (.cons "k" (.name "y" 7) .nil) 7 (.name "g" 7)
      (.cons (.constant (.intC 2) 7) .nil) (.cons "k" (.name "y" 7) .nil)
      rfl rfl rfl rfl).1⟩

/-- C4 (amended): `_build_name` maps a literal constant to its stringified
value without quoting, a plain name to itself, attribute access to
`<base>.<attr>` and subscript access to `<base>[<key>]`; but a call used
as a callee does *not* resolve to its own callee's identity — the `Call`
shape falls to the wildcard arm and raises `TypeError` naming the node
kind, like every other unsupported shape. -/
theorem buildNameSpec :
    (∀ (c : PConst) (l : Int), buildName (.constant c l) = .ok c.pyStr) ∧
    (∀ (x : String) (l : Int), buildName (.name x l) = .ok x) ∧
    (∀ (v : PExpr) (a : String) (l : Int) (base : String),
      buildName v = .ok base →
      buildName (.attribute v a l) = .ok (base ++ "." ++ a)) ∧
    (∀ (v sl : PExpr) (l : Int) (base key : String),
      buildName v = .ok base → buildName sl = .ok key →
      buildName (.subscript v sl l) = .ok (base ++ "[" ++ key ++ "]")) ∧
    (∀ (f : PExpr) (args : PExprList) (kws : PKeywords) (l : Int),
      buildName (.call f args kws l) =
        .error (.typeErr ("Unknown call node type: " ++
          PExpr.kind (.call f args kws l)))) := by
  refine ⟨fun c l => rfl, fun x l => rfl, ?_, ?_, fun f args kws l => rfl⟩
  · intro v a l base hv
    simp only [buildName]
    rw [hv, exBindOk]
  · intro v sl l base key hv hsl
    simp only [buildName]
    rw [hv, exBindOk, hsl, exBindOk]

theorem buildNameSpec_witness :
    buildName (.name "a" 0) = .ok "a" ∧
      buildName (.attribute (.name "a" 0) "b" 0) = .ok "a.b" ∧
      buildName (.subscript (.name "a" 0) (.constant (.intC 0) 0) 0) = .ok "a[0]" :=
  ⟨buildNameSpec.2.1 "a" 0,
   by rw [buildNameSpec.2.2.1 (.name "a" 0) "b" 0 "a" rfl]; rfl,
   by rw [buildNameSpec.2.2.2.1 (.name "a" 0) (.constant (.intC 0) 0) 0 "a" "0" rfl rfl]; rfl⟩

/-- C4 counterexample: a call used as a callee, `f()()`, does not resolve
to the identity of its own callee — it raises `TypeError`. -/
theorem buildNameCallValue_cex :
    buildName (.call (.name "f" 0) .nil .nil 0) ≠ .ok "f" := by
  intro h
  rw [show buildName (.call (.name "f" 0) .nil .nil 0) =
    .error (.typeErr "Unknown call node type: Call") from rfl] at h
  cases h

/-- C5: the filter decision.  In every configuration the constructor
accepts (the two filter sets are not both non-empty), `_allow_wrap_call`
never raises on a call with a resolvable callee, and it routes the call
through the wrapper exactly when the callee is not the bare name `globals`
or `locals` and either both filter sets are empty, or the blacklist is
non-empty and neither the exact resolved identity nor any wildcard
expansion of it is blacklisted, or the whitelist is non-empty and the
exact identity or some wildcard expansion of it is whitelisted. -/
theorem allowWrapCallRouting (bl wl : List String) (hx : bl = [] ∨ wl = [])
    (f : PExpr) (args : PExprList) (kws : PKeywords) (l : Int) (nm : String)
    (hn : buildName f = .ok nm) :
    (∃ b, allowWrapCall bl wl (.call f args kws l) = .ok b) ∧
      (allowWrapCall bl wl (.call f args kws l) = .ok true ↔
        specEligible bl wl (.call f args kws l) nm) :=
  allowWrapCallSpec bl wl hx f args kws l nm hn

/-- Witness callee for C5: the code shape `a[0].c(...)`, whose identity is
`a[0].c`; the blacklist entry `a[*].c` matches it only through wildcard
expansion. -/
def calleeC5 : PExpr :=
  .attribute (.subscript (.name "a" 0) (.constant (.intC 0) 0) 0) "c" 0

theorem allowWrapCallRouting_witness :
    buildName calleeC5 = .ok "a[0].c" ∧
      (∃ b, allowWrapCall ["a[*].c"] [] (.call calleeC5 .nil .nil 0) = .ok b) ∧
      allowWrapCall ["a[*].c"] [] (.call calleeC5 .nil .nil 0) = .ok false :=
  ⟨rfl,
   (allowWrapCallRouting ["a[*].c"] [] (Or.inr rfl) calleeC5 .nil .nil 0
     "a[0].c" rfl).1,
   rfl⟩

/-- C6: every engine failure surfaces at decoration time, in the
pipeline's guard order: a `ValueError` when the (merged) blacklist and the
whitelist are both non-empty, a `ValueError` when the target captures
enclosing-scope variables, a `TypeError` when the target is not a genuine
function, a `ValueError` when its source is unavailable, and a
`ValueError` when a named decorator to strip is not found on the
definition (decorator shapes supported, none matching the name). -/
theorem decorationErrors (tf : PyFunc) (dn : Option String) (iB : Bool)
    (bl wl : Option (List String)) :
    (mergedBlacklist tf iB bl ≠ [] ∧ wl.getD [] ≠ [] →
      rewriteWrapCallsFunc tf dn iB bl wl =
        .error (.valueErr "Call blacklist and whitelist can not both be used at once")) ∧
    (¬(mergedBlacklist tf iB bl ≠ [] ∧ wl.getD [] ≠ []) → tf.closureVars ≠ [] →
      rewriteWrapCallsFunc tf dn iB bl wl =
        .error (.valueErr "Functions with non-local variables not supported for wrapping.")) ∧
    (¬(mergedBlacklist tf iB bl ≠ [] ∧ wl.getD [] ≠ []) → tf.closureVars = [] →
      tf.isFunc = false →
      rewriteWrapCallsFunc tf dn iB bl wl =
        .error (.typeErr "Only functions/methods supported for AST transformation.")) ∧
    (¬(mergedBlacklist tf iB bl ≠ [] ∧ wl.getD [] ≠ []) → tf.closureVars = [] →
      tf.isFunc = true → tf.src = none →
      rewriteWrapCallsFunc tf dn iB bl wl =
        .error (.valueErr "Source not available")) ∧
    (∀ (d : String) (si : ParsedSource) (fn : String) (ps ks : List String)
        (kd decos : PExprList) (body : PStmtList) (l : Int),
      dn = some d → iB = false → bl = none → wl = none →
      tf.closureVars = [] → tf.isFunc = true → tf.src = some si →
      si.tree = .functionDef fn ps ks kd decos body l →
      noDecoMatch d decos = true →
      rewriteWrapCallsFunc tf dn iB bl wl =
        .error (.valueErr (decoNotFoundMsg d))) := by
  refine ⟨?_, ?_, ?_, ?_, ?_⟩
  · intro h1
    unfold rewriteWrapCallsFunc
    rw [if_pos h1]
  · intro h1 h2
    unfold rewriteWrapCallsFunc
    rw [if_neg h1, if_pos h2]
  · intro h1 h2 h3
    unfold rewriteWrapCallsFunc
    rw [if_neg h1, if_neg (by simp [h2]), if_pos (by simp [h3])]
  · intro h1 h2 h3 h4
    unfold rewriteWrapCallsFunc
    rw [if_neg h1, if_neg (by simp [h2]), if_neg (by simp [h3]), h4]
  · intro d si fn ps ks kd decos body l hdn hib hbl hwl h2 h3 hsrc htree hnm
    subst hdn hib hbl hwl
    unfold rewriteWrapCallsFunc
    rw [if_neg (by simp [mergedBlacklist]), if_neg (by simp [h2]),
      if_neg (by simp [h3]), hsrc]
    dsimp only
    have herr : transformStmt
        ⟨WRAP_NAME, some d, mergedBlacklist tf false none,
          (none : Option (List String)).getD []⟩ 0
        (incrementStmt (1 - si.firstlineno) si.tree) =
        .error (.valueErr (decoNotFoundMsg d)) := by
      rw [htree]
      simp only [incrementStmt]
      exact transformDefNoMatchErr _ d rfl fn ps ks _ _ _ _ 0
        (by rw [noDecoMatchIncrement]; exact hnm)
    rw [herr, exBindErr]

/-- Witness target for C6's decorator-not-found case: decorator `wc` is
asked for but the definition carries none. -/
def siC6 : ParsedSource :=
  ⟨1, .functionDef "g" [] [] .nil .nil
    (.cons (.ret (.constant .noneC 2) 2) .nil) 1⟩

def tfC6 : PyFunc := ⟨true, [], some siC6, []⟩

def tfC6b : PyFunc := ⟨true, [], none, []⟩

theorem decorationErrors_witness :
    (mergedBlacklist tfC6b false (some ["x"]) ≠ [] ∧
        (some ["y"] : Option (List String)).getD [] ≠ []) ∧
      rewriteWrapCallsFunc tfC6b none false (some ["x"]) (some ["y"]) =
        .error (.valueErr "Call blacklist and whitelist can not both be used at once") ∧
      rewriteWrapCallsFunc tfC6b none false none none =
        .error (.valueErr "Source not available") ∧
      rewriteWrapCallsFunc tfC6 (some "wc") false none none =
        .error (.valueErr (decoNotFoundMsg "wc")) :=
  ⟨⟨by decide, by decide⟩,
   (decorationErrors tfC6b none false (some ["x"]) (some ["y"])).1
     ⟨by decide, by decide⟩,
   (decorationErrors tfC6b none false none none).2.2.2.1
     (by decide) rfl rfl rfl,
   (decorationErrors tfC6 (some "wc") false none none).2.2.2.2 "wc" siC6
     "g" [] [] .nil .nil (.cons (.ret (.constant .noneC 2) 2) .nil) 1
     rfl rfl rfl rfl rfl rfl rfl rfl (by decide)⟩

/-- C7 (amended): processing a function-definition node appends exactly
one keyword-only parameter (the wrapper name) with a default `Name`
referencing that same name; but the decorator list is *not* detached
before recursing — `generic_visit` runs over all children including the
(post-removal) decorator list, so the surviving decorators come back
transformed like any other child, not reattached unchanged. -/
theorem visitFunctionDefShape (cfg : TConfig) (a : Int) (fn : String)
    (ps ks : List String) (kd decos : PExprList) (body : PStmtList) (l : Int)
    (s' : PStmt) (a' : Int) (hdn : cfg.decName = none)
    (h : transformStmt cfg a (.functionDef fn ps ks kd decos body l) = .ok (s', a')) :
    ∃ kd' body' decos',
      transformExprList cfg (kd.append (.cons (.name cfg.wrapName l) .nil)) = .ok kd' ∧
      transformStmtList cfg a body = .ok (body', a') ∧
      transformExprList cfg decos = .ok decos' ∧
      s' = .functionDef fn ps (ks ++ [cfg.wrapName]) kd' decos' body' l := by
  simp only [transformStmt] at h
  rw [hdn] at h
  dsimp only at h
  rw [exBindOk] at h
  dsimp only at h
  cases hkd : transformExprList cfg (kd.append (.cons (.name cfg.wrapName l) .nil)) with
  | error e => rw [hkd, exBindErr] at h; cases h
  | ok kd' =>
      rw [hkd, exBindOk] at h
      cases hb : transformStmtList cfg a body with
      | error e => rw [hb, exBindErr] at h; cases h
      | ok pb =>
          rw [hb, exBindOk] at h
          obtain ⟨body', a2⟩ := pb
          cases hdc : transformExprList cfg decos with
          | error e => rw [hdc, exBindErr] at h; cases h
          | ok decos' =>
              rw [hdc, exBindOk] at h
              cases h
              exact ⟨kd', body', decos', rfl, rfl, rfl, rfl⟩

theorem visitFunctionDefShape_witness :
    plainCfg.decName = none ∧
      transformStmt plainCfg 0
          (.functionDef "h" ["n"] [] .nil .nil
            (.cons (.ret (.name "n" 2) 2) .nil) 1) =
        .ok (.functionDef "h" ["n"] [WRAP_NAME] (.cons (.name WRAP_NAME 1) .nil)
          .nil (.cons (.ret (.name "n" 2) 2) .nil) 1, 0) ∧
      (∃ kd' body' decos',
        transformExprList plainCfg
            (PExprList.append .nil (.cons (.name plainCfg.wrapName 1) .nil)) = .ok kd' ∧
        transformStmtList plainCfg 0 (.cons (.ret (.name "n" 2) 2) .nil) = .ok (body', 0) ∧
        transformExprList plainCfg .nil = .ok decos' ∧
        (.functionDef "h" ["n"] [WRAP_NAME] (.cons (.name WRAP_NAME 1) .nil)
            .nil (.cons (.ret (.name "n" 2) 2) .nil) 1 : PStmt) =
          .functionDef "h" ["n"] (["n"].tail ++ [plainCfg.wrapName]) kd' decos' body' 1) :=
  ⟨rfl, rfl,
    visitFunctionDefShape plainCfg 0 "h" ["n"] [] .nil .nil
      (.cons (.ret (.name "n" 2) 2) .nil) 1
      (.functionDef "h" ["n"] [WRAP_NAME] (.cons (.name WRAP_NAME 1) .nil)
        .nil (.cons (.ret (.name "n" 2) 2) .nil) 1) 0 rfl rfl⟩

/-- C7 counterexample fixture: a remaining decorator `deco(x)`. -/
def decosC7 : PExprList :=
  .cons (.call (.name "deco" 1) (.cons (.name "x" 1) .nil) .nil 1) .nil

/-- C7 counterexample: the decorator list is not reattached unchanged —
the call expression inside the surviving decorator `deco(x)` is itself
rewritten into a wrapped call, because `generic_visit` recurses into the
decorator list too (nothing is detached). -/
theorem decoratorTransformed_cex :
    transformStmt plainCfg 0 (.functionDef "f" [] [] .nil decosC7 .nil 1) =
        .ok (.functionDef "f" [] [WRAP_NAME] (.cons (.name WRAP_NAME 1) .nil)
          (.cons (.call (.name WRAP_NAME 1)
            (.cons (.name "deco" 1) (.cons (.name "x" 1) .nil)) .nil 1) .nil)
          .nil 1, 0) ∧
      (.cons (.call (.name WRAP_NAME 1)
          (.cons (.name "deco" 1) (.cons (.name "x" 1) .nil)) .nil 1) .nil) ≠ decosC7 := by
  refine ⟨rfl, ?_⟩
  intro hEq
  injection hEq with h1 h2
  injection h1 with g1 g2 g3 g4
  injection g1 with n1 n2
  exact absurd n1 (by decide)

/-- C8 (amended): profiler construction fails exactly when *both*
callbacks are null — `if below_callback is None and above_callback is
None: raise ValueError` — not "unless exactly one is non-null"; in
particular the documented default (both callbacks non-null) constructs
fine. -/
theorem profilerCallbackCheck :
    (∀ (α : Type) (b a : Option α),
      flatProfileCheck b a =
          .error (.valueErr
            "At least one of before_callback and above_callback must be non-None") ↔
        b = none ∧ a = none) ∧
    (∀ (α : Type) (b a : Option α),
      shallowCallProfilerCheck b a =
          .error (.valueErr
            "At least one of before_callback and above_callback must be non-None") ↔
        b = none ∧ a = none) := by
  constructor <;> intro α b a <;> cases b <;> cases a <;>
    simp [flatProfileCheck, shallowCallProfilerCheck]

/-- C8 counterexample: with both callbacks supplied (any combination other
than exactly-one, here two non-null callbacks), construction succeeds in
both profilers — refuting "fails unless exactly one is non-null". -/
theorem profilerBothCallbacks_cex :
    flatProfileCheck (some ()) (some ()) = .ok () ∧
      shallowCallProfilerCheck (some ()) (some ()) = .ok () := ⟨rfl, rfl⟩

/-- C9: decorator removal fires on every function-definition node the
transformer visits, not only the outermost one.  For a target whose body
contains a nested definition carrying no decorator matching the supplied
name, the whole rewrite raises `ValueError "Decorator named '...' not
found."` — even when the outer definition's own decorators are fine. -/
theorem nestedDefDecoratorError (tf : PyFunc) (d : String) (si : ParsedSource)
    (fn : String) (ps ks : List String) (kd decos : PExprList) (body : PStmtList)
    (l : Int) (hcl : tf.closureVars = []) (hf : tf.isFunc = true)
    (hsrc : tf.src = some si)
    (htree : si.tree = .functionDef fn ps ks kd decos body l)
    (hsup : supportedDecosStmt si.tree = true)
    (hbare : hasBareDef d body = true) :
    rewriteWrapCallsFunc tf (some d) false none none =
      .error (.valueErr (decoNotFoundMsg d)) := by
  unfold rewriteWrapCallsFunc
  rw [if_neg (by simp [mergedBlacklist]), if_neg (by simp [hcl]),
    if_neg (by simp [hf]), hsrc]
  dsimp only
  have hsup' : supportedDecosStmt
      (incrementStmt (1 - si.firstlineno) (.functionDef fn ps ks kd decos body l)) = true := by
    rw [supportedDecosStmtIncrement, ← htree]
    exact hsup
  have hbare' : hasBareDef d (incrementStmtList (1 - si.firstlineno) body) = true := by
    rw [hasBareDefIncrement]
    exact hbare
  have herr : transformStmt
      ⟨WRAP_NAME, some d, mergedBlacklist tf false none,
        (none : Option (List String)).getD []⟩ 0
      (incrementStmt (1 - si.firstlineno) si.tree) =
      .error (.valueErr (decoNotFoundMsg d)) := by
    rw [htree]
    exact transformNestedDefErr
      ⟨WRAP_NAME, some d, mergedBlacklist tf false none,
        (none : Option (List String)).getD []⟩ d rfl rfl rfl fn ps ks _ _ _ _ 0
      hsup' hbare'
  rw [herr, exBindErr]

/-- Witness target for C9: outer definition decorated with `wc`, body
containing an undecorated nested definition. -/
def bodyC9 : PStmtList :=
  .cons (.functionDef "inner" [] [] .nil .nil
    (.cons (.ret (.constant .noneC 3) 3) .nil) 2) .nil

def siC9 : ParsedSource :=
  ⟨1, .functionDef "outer" [] [] .nil (.cons (.name "wc" 1) .nil) bodyC9 1⟩

def tfC9 : PyFunc := ⟨true, [], some siC9, []⟩

theorem nestedDefDecoratorError_witness :
    tfC9.src = some siC9 ∧ hasBareDef "wc" bodyC9 = true ∧
      rewriteWrapCallsFunc tfC9 (some "wc") false none none =
        .error (.valueErr (decoNotFoundMsg "wc")) :=
  ⟨rfl, by decide,
   nestedDefDecoratorError tfC9 "wc" siC9 "outer" [] [] .nil
     (.cons (.name "wc" 1) .nil) bodyC9 1 rfl rfl rfl rfl (by decide) (by decide)⟩

/-- C10: the caller's blacklist set is mutated in place.  When
`ignore_builtins` is true and a blacklist set is supplied, after a
successful decoration the caller's set holds its original entries *plus*
every name bound to a callable in the target's builtin namespace
(`full_blacklist |= builtin_calls` aliases the supplied set); when
`ignore_builtins` is false, the supplied blacklist and whitelist objects
come through decoration unmodified. -/
theorem blacklistMutation (tf : PyFunc) (dn : Option String)
    (bl wl : Option (List String)) (r : RewriteResult) (s : List String) :
    (rewriteWrapCallsFunc tf dn true (some s) wl = .ok r →
      r.callerBlacklist = some (s ++ callableBuiltins tf) ∧
        ∀ x, (x, true) ∈ tf.builtins → x ∈ s ++ callableBuiltins tf) ∧
    (rewriteWrapCallsFunc tf dn false bl wl = .ok r →
      r.callerBlacklist = bl ∧ r.callerWhitelist = wl) := by
  constructor
  · intro h
    obtain ⟨h1, _, _⟩ := rewriteResultSets tf dn true (some s) wl r h
    refine ⟨by rw [h1]; rfl, ?_⟩
    intro x hx
    exact List.mem_append.2 (Or.inr ((callableBuiltinsMem tf x).2 hx))
  · intro h
    obtain ⟨h1, h2, _⟩ := rewriteResultSets tf dn false bl wl r h
    rw [h1, h2]
    exact ⟨rfl, rfl⟩

/-- Witness target for C10: two builtins of which only `len` is callable. -/
def siC10 : ParsedSource :=
  ⟨1, .functionDef "t" [] [] .nil .nil
    (.cons (.ret (.constant .noneC 2) 2) .nil) 1⟩

def tfC10 : PyFunc := ⟨true, [], some siC10, [("len", true), ("True", false)]⟩

def rC10 : RewriteResult :=
  ⟨.functionDef "t" [] [WRAP_NAME] (.cons (.name WRAP_NAME 2) .nil) .nil
      (.cons (.ret (.constant .noneC 3) 3) .nil) 2,
    0, ["x", "len"], some ["x", "len"], none⟩

theorem blacklistMutation_witness :
    rewriteWrapCallsFunc tfC10 none true (some ["x"]) none = .ok rC10 ∧
      rC10.callerBlacklist = some (["x"] ++ callableBuiltins tfC10) ∧
      "len" ∈ ["x"] ++ callableBuiltins tfC10 :=
  ⟨rfl,
   ((blacklistMutation tfC10 none none none rC10 ["x"]).1 rfl).1,
   ((blacklistMutation tfC10 none none none rC10 ["x"]).1 rfl).2 "len" (by decide)⟩
